import Mathlib

/-!
Verification of the OnlyTrade AKShare collection pipeline
(`scripts/akshare/collector.py`, `scripts/akshare/converter.py`,
`scripts/akshare/common.py`) via a shallow embedding in Lean.

Modelling conventions:

* Python floats are modelled by `PyFloat`, an exact rational represented as an
  integer numerator/denominator pair (denominators are positive for every value
  the embedded code constructs).  The operations the embedded code performs
  (copy, subtraction, comparison, `max`, multiplication, division by a positive
  number, rounding) are exact on the values appearing in the claims.
* Python strings are Lean `String`s; Python's lexicographic code-point
  comparison is embedded as `strLtB`/`strLeB` (structural recursion over the
  character list, so that proofs and concrete evaluation both work).
* Upstream network fetchers (`ak.stock_zh_a_hist_min_em`, `ak.stock_zh_a_minute`,
  `ak.stock_bid_ask_em`, `ak.stock_zh_a_spot`) are inputs of the embedding: each
  is an `Except`-valued result (exception or rows).  The retry wrapper
  `_retry_call` re-invokes the same deterministic fetch, so it is the identity
  on these modelled results.  Provider rows are modelled with their
  field-alias resolution already performed (the source tries the Chinese field
  name and falls back to the English one; the model receives the resolved
  value, `Option` marking an absent-or-unparseable field, which `_as_float`
  replaces by its fallback).
* File I/O (`jsonl` append, atomic JSON writes) is modelled by the in-memory
  lists the pass accumulates; `ingest_ts` fields (wall-clock ingestion stamps)
  carry no claim content and are omitted from the row model.
-/

namespace OnlyTrade

/-! ### Python string comparison (lexicographic by code point) -/

/-- Lexicographic `<` on character lists, comparing code points, exactly as
Python compares `str` values. -/
def lexLtB : List Char → List Char → Bool
  | [], [] => false
  | [], _ :: _ => true
  | _ :: _, [] => false
  | c :: cs, d :: ds => if c = d then lexLtB cs ds else c.toNat < d.toNat

/-- Python's `a < b` on strings. -/
def strLtB (a b : String) : Bool := lexLtB a.data b.data

/-- Python's `a <= b` on strings (total order, so `a <= b` iff `¬ (b < a)`). -/
def strLeB (a b : String) : Bool := !(strLtB b a)

/-! ### PyFloat: exact model of the numeric values the scripts manipulate -/

/-- Exact rational (numerator / denominator) standing in for a Python float.
All values constructed by the embedded code have a positive denominator. -/
structure PyFloat where
  num : Int
  den : Int
deriving DecidableEq, Repr

instance : OfNat PyFloat n := ⟨⟨(n : Int), 1⟩⟩

instance : Neg PyFloat := ⟨fun a => ⟨-a.num, a.den⟩⟩

instance : LE PyFloat := ⟨fun a b => a.num * b.den ≤ b.num * a.den⟩

instance : LT PyFloat := ⟨fun a b => a.num * b.den < b.num * a.den⟩

instance (a b : PyFloat) : Decidable (a ≤ b) :=
  inferInstanceAs (Decidable (a.num * b.den ≤ b.num * a.den))

instance (a b : PyFloat) : Decidable (a < b) :=
  inferInstanceAs (Decidable (a.num * b.den < b.num * a.den))

instance : Sub PyFloat := ⟨fun a b => ⟨a.num * b.den - b.num * a.den, a.den * b.den⟩⟩

instance : Mul PyFloat := ⟨fun a b => ⟨a.num * b.num, a.den * b.den⟩⟩

instance : Div PyFloat := ⟨fun a b => ⟨a.num * b.den, a.den * b.num⟩⟩

/-- Python `max(a, b)`: returns the first argument on ties. -/
def pyMax (a b : PyFloat) : PyFloat := if a < b then b else a

/-- Python `min(a, b)`: returns the first argument on ties. -/
def pyMin (a b : PyFloat) : PyFloat := if b < a then b else a

/-! ### Association lists (insertion-ordered Python dicts) -/

/-- Python dict lookup (`d.get(k)`). -/
def alookup {κ α : Type} [DecidableEq κ] : List (κ × α) → κ → Option α
  | [], _ => none
  | (k, v) :: rest, key => if k = key then some v else alookup rest key

/-- Python dict write (`d[k] = v`): updates the existing binding in place or
appends a new one, preserving insertion order. -/
def aset {κ α : Type} [DecidableEq κ] : List (κ × α) → κ → α → List (κ × α)
  | [], k, v => [(k, v)]
  | (k', v') :: rest, k, v =>
      if k' = k then (k, v) :: rest else (k', v') :: aset rest k v

/-! ### `scripts/akshare/common.py`: symbol normalization -/

/-- Python `str.lower()` restricted to ASCII letters (the symbol codes the
scripts handle are ASCII). -/
def pyLowerChar (c : Char) : Char :=
  if 65 ≤ c.toNat ∧ c.toNat ≤ 90 then Char.ofNat (c.toNat + 32) else c

/-- ASCII whitespace stripped by Python `str.strip()`. -/
def isPySpace (c : Char) : Bool :=
  c = ' ' ∨ c = '\t' ∨ c = '\n' ∨ c = '\r' ∨ c.toNat = 11 ∨ c.toNat = 12

/-- Python `str.strip()`. -/
def stripChars (cs : List Char) : List Char :=
  ((cs.dropWhile isPySpace).reverse.dropWhile isPySpace).reverse

/-- Does `cs` start with `pre` (Python `str.startswith`)? -/
def listStarts : List Char → List Char → Bool
  | [], _ => true
  | _ :: _, [] => false
  | p :: ps, c :: cs => p = c && listStarts ps cs

/-- Python `str.zfill(width)`: left-pad with `'0'` to `width`, keeping a
leading sign character in front of the padding. -/
def zfillChars (width : Nat) (cs : List Char) : List Char :=
  if width ≤ cs.length then cs
  else
    match cs with
    | c :: rest =>
        if c = '+' ∨ c = '-' then c :: (List.replicate (width - cs.length) '0' ++ rest)
        else List.replicate (width - cs.length) '0' ++ cs
    | [] => List.replicate width '0'

/-- `common.to_code`: strip, lowercase, drop a leading `sh`/`sz`/`bj` venue
marker, zero-fill to six characters. -/
def to_code (value : String) : String :=
  let raw := (stripChars value.data).map pyLowerChar
  let raw :=
    if listStarts ['s', 'h'] raw || listStarts ['s', 'z'] raw || listStarts ['b', 'j'] raw
    then raw.drop 2 else raw
  ⟨zfillChars 6 raw⟩

/-- `common.to_onlytrade_symbol`: venue-qualified identifier; only codes
starting with `'6'` receive the Shanghai suffix. -/
def to_onlytrade_symbol (code : String) : String :=
  let normalized := to_code code
  if listStarts ['6'] normalized.data then normalized ++ ".SH" else normalized ++ ".SZ"

/-- `common.exchange_from_code`: only codes starting with `'6'` map to SSE. -/
def exchange_from_code (code : String) : String :=
  let normalized := to_code code
  if listStarts ['6'] normalized.data then "SSE" else "SZSE"

/-- `collector._to_prefixed_symbol` (leading underscore dropped): codes
starting with `'5'`, `'6'` or `'9'` receive the `sh` venue marker used by the
alternate minute endpoint; all others `sz`. -/
def to_prefixed_symbol (code : String) : String :=
  let normalized := to_code code
  if listStarts ['5'] normalized.data || listStarts ['6'] normalized.data
      || listStarts ['9'] normalized.data
  then "sh" ++ normalized else "sz" ++ normalized

/-! ### `scripts/akshare/collector.py`: row models and source adapters -/

/-- A raw row of the primary minute-history endpoint
(`ak.stock_zh_a_hist_min_em`), with field aliases resolved: `time` is
`str(row.get("时间") or row.get("time") or "")`, each numeric field is
`none` when absent or not convertible to `float`. -/
structure HistRow where
  time : String
  openv : Option PyFloat
  closev : Option PyFloat
  highv : Option PyFloat
  lowv : Option PyFloat
  volumev : Option PyFloat
  amountv : Option PyFloat
  avgv : Option PyFloat
deriving DecidableEq, Repr

/-- A raw row of the alternate minute endpoint (`ak.stock_zh_a_minute`):
`time` is `str(row.get("day") or row.get("time") or "")`. -/
structure MinApiRow where
  time : String
  openv : Option PyFloat
  closev : Option PyFloat
  highv : Option PyFloat
  lowv : Option PyFloat
  volumev : Option PyFloat
  amountv : Option PyFloat
  avgv : Option PyFloat
deriving DecidableEq, Repr

/-- A normalized minute bar, i.e. one line of the raw minute log
(`ingest_ts` omitted, see the module comment). -/
structure MinuteRow where
  symbol_code : String
  time : String
  openp : PyFloat
  closep : PyFloat
  highp : PyFloat
  lowp : PyFloat
  volume_lot : PyFloat
  amount_cny : PyFloat
  avg_price : PyFloat
  source : String
deriving DecidableEq, Repr

/-- A quote snapshot (`collector.fetch_quote_snapshot` result shape,
`ingest_ts` omitted). -/
structure Quote where
  symbol_code : String
  latest : PyFloat
  pct_change : PyFloat
  turnover_cny : PyFloat
  volume_lot : PyFloat
  openp : PyFloat
  highp : PyFloat
  lowp : PyFloat
  prev_close : PyFloat
  source : String
deriving DecidableEq, Repr

/-- `collector._as_float` (leading underscore dropped): the resolved field if
convertible, else the fallback. -/
def as_float (v : Option PyFloat) (fallback : PyFloat) : PyFloat := v.getD fallback

/-- `collector._normalize_minute_rows` (primary endpoint row shape). -/
def normalize_minute_rows (code : String) (rows : List HistRow) : List MinuteRow :=
  rows.map fun row =>
    { symbol_code := to_code code
      time := row.time
      openp := as_float row.openv 0
      closep := as_float row.closev 0
      highp := as_float row.highv 0
      lowp := as_float row.lowv 0
      volume_lot := as_float row.volumev 0
      amount_cny := as_float row.amountv 0
      avg_price := as_float row.avgv 0
      source := "akshare.stock_zh_a_hist_min_em" }

/-- `collector._normalize_minute_rows_from_minute_api` (alternate endpoint
row shape; high/low/avg default to the close price). -/
def normalize_minute_rows_from_minute_api (code : String) (rows : List MinApiRow) :
    List MinuteRow :=
  rows.map fun row =>
    let close_price := as_float row.closev 0
    { symbol_code := to_code code
      time := row.time
      openp := as_float row.openv 0
      closep := close_price
      highp := as_float row.highv close_price
      lowp := as_float row.lowv close_price
      volume_lot := as_float row.volumev 0
      amount_cny := as_float row.amountv 0
      avg_price := as_float row.avgv close_price
      source := "akshare.stock_zh_a_minute" }

/-- `MIN_RECOVERY_BARS` from `collector.py`. -/
def MIN_RECOVERY_BARS : Int := 240

/-- Python `max` on two ints (first argument on ties). -/
def pyIntMax (a b : Int) : Int := if a < b then b else a

/-- pandas `df.tail(n)` for `n ≥ 0`: the last `n` rows. -/
def listTail {α : Type} (n : Int) (xs : List α) : List α :=
  xs.drop (xs.length - n.toNat)

/-- Python `"; ".join(errors)`. -/
def strJoin (sep : String) : List String → String
  | [] => ""
  | [s] => s
  | s :: rest => s ++ sep ++ strJoin sep rest

/-- `collector.fetch_minute_tail`, with the two upstream endpoint results as
inputs (`hist` for `ak.stock_zh_a_hist_min_em`, `minuteApi` for
`ak.stock_zh_a_minute`; `_retry_call` re-invokes the same deterministic
fetch).  `secondMinuteStage` is the part after the primary attempt, carrying
the error strings accumulated so far. -/
def secondMinuteStage (normalized : String) (lookback : Int)
    (minuteApi : Except String (List MinApiRow)) (errors : List String) :
    Except String (List MinuteRow) :=
  match minuteApi with
  | .ok rows =>
      let normalized_rows := normalize_minute_rows_from_minute_api normalized (listTail lookback rows)
      if normalized_rows.isEmpty then
        if errors.isEmpty then .ok [] else .error (strJoin "; " errors)
      else .ok normalized_rows
  | .error e =>
      .error (strJoin "; " (errors ++ ["stock_zh_a_minute: " ++ e]))

def fetch_minute_tail (code : String) (tail_bars : Int)
    (hist : Except String (List HistRow)) (minuteApi : Except String (List MinApiRow)) :
    Except String (List MinuteRow) :=
  let normalized := to_code code
  let lookback_bars := pyIntMax tail_bars MIN_RECOVERY_BARS
  match hist with
  | .ok rows =>
      let normalized_rows := normalize_minute_rows normalized (listTail lookback_bars rows)
      if normalized_rows.isEmpty then secondMinuteStage normalized lookback_bars minuteApi []
      else .ok normalized_rows
  | .error e => secondMinuteStage normalized lookback_bars minuteApi ["hist_min_em: " ++ e]

/-- `collector.build_quote_snapshot_from_minute_row` (Tier 3): the minute row
always carries `open`/`close`/`high`/`low` and never `prev_close`, so the
source's `_as_float(minute_row.get(...), fallback)` calls resolve as below. -/
def build_quote_snapshot_from_minute_row (code : String) (minute_row : MinuteRow) : Quote :=
  let normalized := to_code code
  let open_price := minute_row.openp
  let close_price := minute_row.closep
  { symbol_code := normalized
    latest := close_price
    pct_change := 0
    turnover_cny := minute_row.amount_cny
    volume_lot := minute_row.volume_lot
    openp := open_price
    highp := minute_row.highp
    lowp := minute_row.lowp
    prev_close := open_price
    source := "akshare.minute_bar_fallback" }

/-- `collector.build_synthetic_minute_row_from_quote`: flat OHLC at the
quote's latest price, clamped deltas for volume/turnover. -/
def build_synthetic_minute_row_from_quote (code : String) (quote : Quote)
    (minute_time : String) (volume_lot_delta amount_cny_delta : PyFloat) : MinuteRow :=
  let normalized := to_code code
  let latest := quote.latest
  { symbol_code := normalized
    time := minute_time
    openp := latest
    closep := latest
    highp := latest
    lowp := latest
    volume_lot := pyMax 0 volume_lot_delta
    amount_cny := pyMax 0 amount_cny_delta
    avg_price := latest
    source := "akshare.quote_synthetic_minute" }

/-- `collector.load_spot_quote_map` applied to the normalized rows of one
`ak.stock_zh_a_spot` fetch (the per-row normalization
`_normalize_spot_row_to_snapshot` is pure field renaming/coercion, so the
fetch input is modelled as the list of normalized snapshots). -/
def load_spot_quote_map (rows : List Quote) : List (String × Quote) :=
  rows.foldl
    (fun quote_map snapshot =>
      if snapshot.symbol_code ≠ "" then aset quote_map snapshot.symbol_code snapshot
      else quote_map)
    []

/-- `collector.fetch_quote_snapshot_from_spot_map` (Tier 2 lookup; `KeyError`
modelled as `.error`). -/
def fetch_quote_snapshot_from_spot_map (code : String)
    (spot_quote_map : List (String × Quote)) : Except String Quote :=
  match alookup spot_quote_map (to_code code) with
  | some snapshot => .ok snapshot
  | none => .error ("spot quote not found for " ++ to_code code)

/-! ### `collector.run_collection`: one collection pass as a state machine

The upstream world during one pass is modelled by a per-code environment
(`SymEnv`) plus a per-attempt result for the market-wide spot fetch.  The
pass state mirrors the in-memory dicts/lists of `run_collection`; `appended`
records the raw minute-log writes in order, each tagged with the code being
collected when the line was written; `reports` is trace instrumentation
recording which tier (if any) produced each symbol's quote. -/

/-- Per-code upstream environment: results of the two minute fetchers and the
direct quote fetch, plus the wall-clock facts `_is_cn_a_market_open()` and
`_current_shanghai_minute_str()` observed while this code is processed. -/
structure SymEnv where
  histResult : Except String (List HistRow)
  minuteApiResult : Except String (List MinApiRow)
  bidAskResult : Except String Quote
  marketOpen : Bool
  nowMinute : String

/-- Which fallback tier produced a symbol's quote. -/
inductive QuoteTier where
  | tier1 : QuoteTier
  | tier2 : QuoteTier
  | tier3 : QuoteTier
deriving DecidableEq, Repr

/-- Trace record: the quote outcome for one processed symbol occurrence. -/
structure SymReport where
  code : String
  tier : Option QuoteTier
  quote : Option Quote
deriving DecidableEq, Repr

/-- The checkpoint document (`last_time_by_symbol`,
`last_quote_volume_lot_by_symbol`, `last_quote_turnover_cny_by_symbol`). -/
structure Checkpoint where
  last_time_by_symbol : List (String × String)
  last_quote_volume_lot_by_symbol : List (String × PyFloat)
  last_quote_turnover_cny_by_symbol : List (String × PyFloat)
deriving DecidableEq, Repr

/-- In-memory state of one `run_collection` pass. -/
structure CollectState where
  last_time : List (String × String)
  last_vol : List (String × PyFloat)
  last_turn : List (String × PyFloat)
  appended : List (String × MinuteRow)
  quote_rows : List Quote
  errors : List (String × String × String)
  spot_map : Option (List (String × Quote))
  spot_calls : Nat
  latest_minute : List (String × MinuteRow)
  reports : List SymReport
deriving Repr

/-- The minute-row loop of `run_collection` (lines 342-354): checkpoint-gated
append of each fetched row.  Returns the updated `last_time_by_symbol`, the
extended log and the `new_minute_written` flag. -/
def appendRows (code : String) :
    List MinuteRow → List (String × String) → List (String × MinuteRow) → Bool →
    List (String × String) × List (String × MinuteRow) × Bool
  | [], lt, app, w => (lt, app, w)
  | row :: rest, lt, app, w =>
      let last_seen := (alookup lt code).getD ""
      if row.time = "" then appendRows code rest lt app w
      else if last_seen ≠ "" ∧ strLeB row.time last_seen = true then
        appendRows code rest lt app w
      else appendRows code rest (aset lt code row.time) (app ++ [(code, row)]) true

/-- Minute stage of one symbol (fetch, remember the latest row, gated append).
Returns the updated state and `new_minute_written`. -/
def minuteStage (code : String) (tail_bars : Int) (e : SymEnv) (st : CollectState) :
    CollectState × Bool :=
  match fetch_minute_tail code tail_bars e.histResult e.minuteApiResult with
  | .error err => ({ st with errors := st.errors ++ [(code, "minute", err)] }, false)
  | .ok minute_rows =>
      let st :=
        match minute_rows.getLast? with
        | some r => { st with latest_minute := aset st.latest_minute code r }
        | none => st
      match appendRows code minute_rows st.last_time st.appended false with
      | (lt, app, w) => ({ st with last_time := lt, appended := app }, w)

/-- Python `str(x)` of an optional fallback error (absent prints as `None`). -/
def optErrStr : Option String → String
  | some s => s
  | none => "None"

/-- Tier 3 of the quote fallback chain (synthesize from the latest minute row
remembered earlier in the same pass, else record the per-symbol error). -/
def quoteTier3 (code : String) (primary_error : String) (fallback_error : Option String)
    (st : CollectState) : CollectState × Option Quote × Option QuoteTier × Bool :=
  match alookup st.latest_minute code with
  | some minute_row =>
      let q := build_quote_snapshot_from_minute_row code minute_row
      ({ st with quote_rows := st.quote_rows ++ [q] }, some q, some .tier3, false)
  | none =>
      ({ st with
          errors := st.errors ++
            [(code, "quote", "primary=" ++ primary_error ++ "; fallback=" ++ optErrStr fallback_error)] },
        none, none, false)

/-- Quote stage of one symbol (lines 360-395).  The returned `Bool` is the
`continue` of the Tier-2 success path, which skips the synthesizer and the
cumulative-tracker update for this symbol. -/
def quoteStage (code : String) (spot : Nat → Except String (List Quote)) (e : SymEnv)
    (st : CollectState) : CollectState × Option Quote × Option QuoteTier × Bool :=
  match e.bidAskResult with
  | .ok q => ({ st with quote_rows := st.quote_rows ++ [q] }, some q, some .tier1, false)
  | .error primary_error =>
      let acquired :
          Option (List (String × Quote)) × Nat × Option String :=
        match st.spot_map with
        | some m => (some m, st.spot_calls, none)
        | none =>
            match spot st.spot_calls with
            | .ok rows => (some (load_spot_quote_map rows), st.spot_calls + 1, none)
            | .error spot_error => (none, st.spot_calls + 1, some spot_error)
      match acquired with
      | (smap, calls, acq_error) =>
          let st := { st with spot_map := smap, spot_calls := calls }
          match smap with
          | some m =>
              match fetch_quote_snapshot_from_spot_map code m with
              | .ok q =>
                  ({ st with quote_rows := st.quote_rows ++ [q] }, some q, some .tier2, true)
              | .error spot_error => quoteTier3 code primary_error (some spot_error) st
          | none => quoteTier3 code primary_error acq_error st

/-- Synthetic-bar stage (lines 397-433): when a quote was obtained, no real
minute bar was appended this pass, and the market is open, synthesize a flat
minute bar at the current minute if it is strictly newer than the
checkpoint, and advance the checkpoint. -/
def synthStage (code : String) (e : SymEnv) (quote : Option Quote)
    (new_minute_written : Bool) (st : CollectState) : CollectState :=
  match quote with
  | none => st
  | some q =>
      if new_minute_written then st
      else if e.marketOpen then
        let minute_time := e.nowMinute
        let last_seen := (alookup st.last_time code).getD ""
        if minute_time ≠ "" ∧ (last_seen = "" ∨ strLtB last_seen minute_time = true) then
          let prev_volume_lot := (alookup st.last_vol code).getD (-1)
          let prev_turnover_cny := (alookup st.last_turn code).getD (-1)
          let curr_volume_lot := q.volume_lot
          let curr_turnover_cny := q.turnover_cny
          let volume_lot_delta :=
            if (0 : PyFloat) ≤ prev_volume_lot then pyMax 0 (curr_volume_lot - prev_volume_lot)
            else 0
          let amount_cny_delta :=
            if (0 : PyFloat) ≤ prev_turnover_cny then pyMax 0 (curr_turnover_cny - prev_turnover_cny)
            else 0
          let synthetic_row :=
            build_synthetic_minute_row_from_quote code q minute_time volume_lot_delta amount_cny_delta
          { st with
              appended := st.appended ++ [(code, synthetic_row)],
              last_time := aset st.last_time code minute_time }
        else st
      else st

/-- Cumulative-tracker stage (lines 435-441). -/
def trackerStage (code : String) (quote : Option Quote) (st : CollectState) : CollectState :=
  match quote with
  | none => st
  | some q =>
      { st with
          last_vol := aset st.last_vol code q.volume_lot,
          last_turn := aset st.last_turn code q.turnover_cny }

/-- Processing of one symbol of the loop body of `run_collection`. -/
def processSymbol (env : String → SymEnv) (spot : Nat → Except String (List Quote))
    (tail_bars : Int) (st : CollectState) (symbol : String) : CollectState :=
  let code := to_code symbol
  let e := env code
  match minuteStage code tail_bars e st with
  | (st1, new_minute_written) =>
      match quoteStage code spot e st1 with
      | (st2, quote, tier, skip) =>
          let st2 := { st2 with reports := st2.reports ++ [⟨code, tier, quote⟩] }
          if skip then st2
          else trackerStage code quote (synthStage code e quote new_minute_written st2)

/-- Pass state loaded from the checkpoint (`read_json_or_default` plus the
three `dict(...)` copies). -/
def initState (cp : Checkpoint) : CollectState :=
  { last_time := cp.last_time_by_symbol
    last_vol := cp.last_quote_volume_lot_by_symbol
    last_turn := cp.last_quote_turnover_cny_by_symbol
    appended := []
    quote_rows := []
    errors := []
    spot_map := none
    spot_calls := 0
    latest_minute := []
    reports := [] }

/-- `collector.run_collection`: fold the per-symbol processing over the
requested symbol list. -/
def run_collection (env : String → SymEnv) (spot : Nat → Except String (List Quote))
    (symbols : List String) (tail_bars : Int) (cp : Checkpoint) : CollectState :=
  symbols.foldl (processSymbol env spot tail_bars) (initState cp)

/-- The checkpoint document atomically rewritten at the end of the pass. -/
def finalCheckpoint (st : CollectState) : Checkpoint :=
  { last_time_by_symbol := st.last_time
    last_quote_volume_lot_by_symbol := st.last_vol
    last_quote_turnover_cny_by_symbol := st.last_turn }

/-- Timestamps in a log fragment written while collecting one code, in write
order. -/
def timesFor (app : List (String × MinuteRow)) (sym : String) : List String :=
  (app.filter fun p => p.1 = sym).map fun p => p.2.time

/-- Timestamps appended to the raw minute log for one collected code, in
write order. -/
def appendedTimesFor (st : CollectState) (sym : String) : List String :=
  timesFor st.appended sym

/-- The checkpoint's last-bar time for a code (`str(d.get(code) or "")`). -/
def cpTimeFor (d : List (String × String)) (sym : String) : String :=
  (alookup d sym).getD ""

/-- Did an `Except`-modelled fetch succeed? -/
def exceptIsOk {ε α : Type} : Except ε α → Bool
  | .ok _ => true
  | .error _ => false

/-- Invariant of the lazy market-wide snapshot: every spot-fetch attempt
before the last one failed, and while no map is cached every attempt so far
failed. -/
def SpotInv (spot : Nat → Except String (List Quote)) (st : CollectState) : Prop :=
  (∀ i, i + 1 < st.spot_calls → exceptIsOk (spot i) = false)
  ∧ (st.spot_map = none → ∀ i, i < st.spot_calls → exceptIsOk (spot i) = false)

/-- Invariant of the cumulative trackers relative to the pass-start
checkpoint: a code whose quote came from Tier 1 or Tier 3 has its trackers at
that quote's cumulative values; a code whose quote came from Tier 2 (or none)
keeps the pass-start tracker values; a code with no report keeps the
pass-start tracker values. -/
def TrackInv (cp : Checkpoint) (st : CollectState) : Prop :=
  (∀ r ∈ st.reports,
    (∀ q, r.quote = some q → (r.tier = some .tier1 ∨ r.tier = some .tier3) →
      alookup st.last_vol r.code = some q.volume_lot
      ∧ alookup st.last_turn r.code = some q.turnover_cny)
    ∧ (r.tier = some .tier2 →
      alookup st.last_vol r.code = alookup cp.last_quote_volume_lot_by_symbol r.code
      ∧ alookup st.last_turn r.code = alookup cp.last_quote_turnover_cny_by_symbol r.code))
  ∧ ∀ sym, (∀ r ∈ st.reports, r.code ≠ sym) →
      alookup st.last_vol sym = alookup cp.last_quote_volume_lot_by_symbol sym
      ∧ alookup st.last_turn sym = alookup cp.last_quote_turnover_cny_by_symbol sym

/-- Strictly increasing (in Python string order) sequence of timestamps. -/
def StrIncr (l : List String) : Prop :=
  List.Chain' (fun a b => strLtB a b = true) l

/-- Forward-only invariant for one collected code: the appended timestamps are
strictly increasing, all strictly above the pass-start checkpoint, all at or
below the current checkpoint, and the checkpoint never moved backwards. -/
def FwdFor (cp0 lt : List (String × String)) (app : List (String × MinuteRow))
    (sym : String) : Prop :=
  StrIncr (timesFor app sym)
  ∧ (∀ t ∈ timesFor app sym, strLtB (cpTimeFor cp0 sym) t = true)
  ∧ (∀ t ∈ timesFor app sym, strLeB t (cpTimeFor lt sym) = true)
  ∧ strLeB (cpTimeFor cp0 sym) (cpTimeFor lt sym) = true

/-! ### Concrete fixtures used by witness and counterexample theorems -/

/-- A concrete Tier-1 quote snapshot. -/
def wQuote : Quote :=
  { symbol_code := "600519", latest := ⟨1490, 1⟩, pct_change := 0,
    turnover_cny := ⟨2000000, 1⟩, volume_lot := ⟨15000, 1⟩, openp := ⟨1488, 1⟩,
    highp := ⟨1491, 1⟩, lowp := ⟨1486, 1⟩, prev_close := ⟨1482, 1⟩,
    source := "akshare.stock_bid_ask_em" }

/-- A concrete well-formed primary-endpoint row. -/
def wHistRow : HistRow :=
  { time := "2026-02-13 09:31:00", openv := some ⟨1488, 1⟩, closev := some ⟨1490, 1⟩,
    highv := some ⟨1491, 1⟩, lowv := some ⟨1486, 1⟩, volumev := some ⟨1000, 1⟩,
    amountv := some ⟨100000, 1⟩, avgv := some ⟨1489, 1⟩ }

/-- Environment: one real bar available, direct quote works, market open. -/
def wEnvOpen : String → SymEnv := fun _ =>
  { histResult := .ok [wHistRow], minuteApiResult := .ok [],
    bidAskResult := .ok wQuote, marketOpen := true,
    nowMinute := "2026-02-13 09:32:00" }

/-- Environment: one real bar available, direct quote works, market closed. -/
def wEnvClosed : String → SymEnv := fun _ =>
  { histResult := .ok [wHistRow], minuteApiResult := .ok [],
    bidAskResult := .ok wQuote, marketOpen := false,
    nowMinute := "2026-02-13 09:32:00" }

/-- Environment: all per-symbol fetchers raise. -/
def wEnvAllFail : String → SymEnv := fun _ =>
  { histResult := .error "blocked", minuteApiResult := .error "blocked",
    bidAskResult := .error "blocked", marketOpen := true,
    nowMinute := "2026-02-13 09:32:00" }

/-- A concrete quote with small cumulative values. -/
def wQuoteSmall : Quote :=
  { symbol_code := "600519", latest := ⟨10, 1⟩, pct_change := 0,
    turnover_cny := ⟨7, 1⟩, volume_lot := ⟨10, 1⟩, openp := ⟨10, 1⟩,
    highp := ⟨10, 1⟩, lowp := ⟨10, 1⟩, prev_close := ⟨10, 1⟩,
    source := "akshare.stock_bid_ask_em" }

/-- Environment: no minute rows upstream, direct quote works, market open
(synthesizer territory). -/
def wEnvSynth : String → SymEnv := fun _ =>
  { histResult := .ok [], minuteApiResult := .ok [],
    bidAskResult := .ok wQuoteSmall, marketOpen := true,
    nowMinute := "2026-02-13 09:32:00" }

/-- Checkpoint carrying a negative last-observed cumulative volume/turnover
(as produced by a pass that stored a negative upstream cumulative value). -/
def wCpNegPrev : Checkpoint :=
  ⟨[], [("600519", ⟨-5, 1⟩)], [("600519", ⟨-3, 1⟩)]⟩

/-- Pass state with positive last-observed cumulative trackers. -/
def wStPrev : CollectState :=
  initState ⟨[], [("600519", ⟨5, 1⟩)], [("600519", ⟨6, 1⟩)]⟩

/-- The market-wide spot fetch always fails. -/
def wSpotFail : Nat → Except String (List Quote) := fun _ => .error "spot down"

/-- The market-wide spot fetch always succeeds with one snapshot. -/
def wSpotOk : Nat → Except String (List Quote) := fun _ => .ok [wQuote]

/-- Empty pass-start checkpoint. -/
def wCpEmpty : Checkpoint := ⟨[], [], []⟩

/-! ### `scripts/akshare/converter.py`: canonical frame conversion

The converter reads back the raw minute records and turns them into
canonical frames.  `datetime.strptime(..., "%Y-%m-%d %H:%M:%S")` is embedded
by the component patterns CPython compiles for those directives (`%Y` four
digits, the others one or two digits with the documented value ranges,
anchored to consume the whole string), and `ZoneInfo("Asia/Shanghai")` as
the fixed UTC+8 offset it denotes for the modern dates the feed carries.
`round` is round-half-to-even on the exact rational.  A parse failure makes
the embedded functions return `none`, mirroring the exception the Python
code lets propagate. -/

/-- One raw minute record as read back from `raw_minute.jsonl` (the dicts
the collector appends).  Field aliases (`时间`/`time`, `开盘`/`open`, …) are
pre-resolved as elsewhere; a numeric field is `none` when absent or not
convertible to `float`. -/
structure RawRecord where
  symbol_code : String
  time : String
  openv : Option PyFloat
  closev : Option PyFloat
  highv : Option PyFloat
  lowv : Option PyFloat
  volumev : Option PyFloat
  amountv : Option PyFloat
deriving DecidableEq, Repr

/-- Maximal leading digit run of a character list. -/
def takeDigits : List Char → List Char × List Char
  | [] => ([], [])
  | c :: cs =>
      if c.isDigit then
        match takeDigits cs with
        | (ds, rest) => (c :: ds, rest)
      else ([], c :: cs)

/-- Numeric value of a digit run. -/
def digitsVal (ds : List Char) : Nat :=
  ds.foldl (fun a c => a * 10 + (c.toNat - 48)) 0

/-- `strptime` `%m`: `1[0-2]|0[1-9]|[1-9]` — one digit `1`-`9` or two digits
`01`-`12`. -/
def monthRunOk (ds : List Char) : Bool :=
  (decide (ds.length = 1) && decide (1 ≤ digitsVal ds) && decide (digitsVal ds ≤ 9))
  || (decide (ds.length = 2) && decide (1 ≤ digitsVal ds) && decide (digitsVal ds ≤ 12))

/-- `strptime` `%d`: `3[01]|[1-2]\d|0[1-9]|[1-9]` — one digit `1`-`9` or two
digits `01`-`31`. -/
def dayRunOk (ds : List Char) : Bool :=
  (decide (ds.length = 1) && decide (1 ≤ digitsVal ds))
  || (decide (ds.length = 2) && decide (1 ≤ digitsVal ds) && decide (digitsVal ds ≤ 31))

/-- `strptime` `%H`: `2[0-3]|[0-1]\d|\d` — one digit or two digits
`00`-`23`. -/
def hourRunOk (ds : List Char) : Bool :=
  decide (ds.length = 1) || (decide (ds.length = 2) && decide (digitsVal ds ≤ 23))

/-- `strptime` `%M` and `%S`: `[0-5]\d|\d` — one digit or two digits
`00`-`59`. -/
def minSecRunOk (ds : List Char) : Bool :=
  decide (ds.length = 1) || (decide (ds.length = 2) && decide (digitsVal ds ≤ 59))

/-- The field tuple `datetime.strptime(s, "%Y-%m-%d %H:%M:%S")` extracts,
`none` when the pattern does not match the whole string. -/
def parse_minute_fields (s : String) : Option (Nat × Nat × Nat × Nat × Nat × Nat) :=
  match takeDigits s.data with
  | (yd, '-' :: r1) =>
      match takeDigits r1 with
      | (md, '-' :: r2) =>
          match takeDigits r2 with
          | (dd, ' ' :: r3) =>
              match takeDigits r3 with
              | (hd, ':' :: r4) =>
                  match takeDigits r4 with
                  | (mid, ':' :: r5) =>
                      match takeDigits r5 with
                      | (sd, []) =>
                          if decide (yd.length = 4) && monthRunOk md && dayRunOk dd
                              && hourRunOk hd && minSecRunOk mid && minSecRunOk sd then
                            some (digitsVal yd, digitsVal md, digitsVal dd,
                              digitsVal hd, digitsVal mid, digitsVal sd)
                          else none
                      | _ => none
                  | _ => none
              | _ => none
          | _ => none
      | _ => none
  | _ => none

/-- Gregorian leap year. -/
def isLeapYear (y : Int) : Bool :=
  (decide (y % 4 = 0) && decide (y % 100 ≠ 0)) || decide (y % 400 = 0)

/-- Length of a month (the validation `datetime(...)` performs). -/
def daysInMonth (y m : Int) : Int :=
  if m = 2 then (if isLeapYear y then 29 else 28)
  else if m = 4 ∨ m = 6 ∨ m = 9 ∨ m = 11 then 30
  else 31

/-- Days since 1970-01-01 of a civil date (the arithmetic underlying
`datetime.timestamp()` for a fixed-offset aware datetime). -/
def daysFromCivil (y m d : Int) : Int :=
  let yy := if m ≤ 2 then y - 1 else y
  let era := (if 0 ≤ yy then yy else yy - 399) / 400
  let yoe := yy - era * 400
  let mp := (m + 9) % 12
  let doy := (153 * mp + 2) / 5 + d - 1
  let doe := yoe * 365 + yoe / 4 - yoe / 100 + doy
  era * 146097 + doe - 719468

/-- `converter._parse_start_ts_ms` (leading underscore dropped):
`strptime`, attach Asia/Shanghai (UTC+8), epoch milliseconds.  `none` when
`strptime` or the `datetime` constructor raises. -/
def parse_start_ts_ms (s : String) : Option Int :=
  match parse_minute_fields s with
  | none => none
  | some (y, m, d, h, mi, sec) =>
      if 1 ≤ y ∧ (d : Int) ≤ daysInMonth (y : Int) (m : Int) then
        some ((daysFromCivil (y : Int) (m : Int) (d : Int) * 86400
          + (h : Int) * 3600 + (mi : Int) * 60 + (sec : Int) - 28800) * 1000)
      else none

/-- Round `n / d` (`d > 0`) to the nearest integer, ties to even
(Python `round`). -/
def roundHalfEvenInt (n d : Int) : Int :=
  let q := n.ediv d
  let r := n.emod d
  if 2 * r < d then q
  else if d < 2 * r then q + 1
  else if q % 2 = 0 then q else q + 1

/-- Python `round(x, k)` on the exact rational. -/
def pyRoundTo (x : PyFloat) (k : Nat) : PyFloat :=
  ⟨roundHalfEvenInt (x.num * (10 : Int) ^ k) x.den, (10 : Int) ^ k⟩

/-- Python `int(round(x))`. -/
def pyRoundInt (x : PyFloat) : Int := roundHalfEvenInt x.num x.den

/-- Python `s[:n]`. -/
def strTake (s : String) (n : Nat) : String := ⟨s.data.take n⟩

/-- The fields of one canonical frame that vary by record (the constant
envelope fields — schema version, market, provider, … — are omitted). -/
structure Frame where
  seq : Int
  symbol : String
  exchange : String
  start_ts_ms : Int
  end_ts_ms : Int
  event_ts_ms : Int
  ingest_ts_ms : Int
  trading_day : String
  openp : PyFloat
  highp : PyFloat
  lowp : PyFloat
  closep : PyFloat
  volume_shares : Int
  turnover_cny : PyFloat
  vwap : PyFloat
deriving DecidableEq, Repr

/-- `converter.map_row_to_frame`. -/
def map_row_to_frame (code : String) (row : RawRecord) (seq : Int) : Option Frame :=
  let normalized := to_code code
  let symbol := to_onlytrade_symbol normalized
  let time_str := row.time
  match parse_start_ts_ms time_str with
  | none => none
  | some start_ts_ms =>
      let end_ts_ms := start_ts_ms + 60000
      let open_price := as_float row.openv 0
      let close_price := as_float row.closev open_price
      let high_price := as_float row.highv (pyMax open_price close_price)
      let low_price := as_float row.lowv (pyMin open_price close_price)
      let volume_lot := as_float row.volumev 0
      let volume_shares := pyRoundInt (volume_lot * (100 : PyFloat))
      let turnover_cny := as_float row.amountv (close_price * ⟨volume_shares, 1⟩)
      let vwap :=
        if 0 < volume_shares then turnover_cny / ⟨volume_shares, 1⟩ else close_price
      some {
        seq := seq
        symbol := symbol
        exchange := exchange_from_code normalized
        start_ts_ms := start_ts_ms
        end_ts_ms := end_ts_ms
        event_ts_ms := end_ts_ms
        ingest_ts_ms := end_ts_ms + 250
        trading_day := strTake time_str 10
        openp := pyRoundTo open_price 4
        highp := pyRoundTo high_price 4
        lowp := pyRoundTo low_price 4
        closep := pyRoundTo close_price 4
        volume_shares := volume_shares
        turnover_cny := pyRoundTo turnover_cny 2
        vwap := pyRoundTo vwap 4 }

/-- The dedup key `(frame["instrument"]["symbol"],
frame["window"]["start_ts_ms"])`. -/
def frameKey (f : Frame) : String × Int := (f.symbol, f.start_ts_ms)

/-- The dedup loop of `convert_records_to_frames` (lines 103-110): insertion
-ordered dict keyed by `frameKey`, last write wins; `none` when a processed
record's time string makes `strptime` raise. -/
def convertLoop : List RawRecord → Nat → List ((String × Int) × Frame) →
    Option (List ((String × Int) × Frame))
  | [], _, acc => some acc
  | row :: rest, idx, acc =>
      let code := to_code row.symbol_code
      let time_str := row.time
      if code = "" ∨ time_str = "" then convertLoop rest (idx + 1) acc
      else
        match map_row_to_frame code row (Int.ofNat (idx + 1)) with
        | none => none
        | some frame => convertLoop rest (idx + 1) (aset acc (frameKey frame) frame)

/-- The Python sort key `(item["window"]["start_ts_ms"],
item["instrument"]["symbol"])`, as a boolean non-strict comparison. -/
def frameKeyLeB (a b : Frame) : Bool :=
  if a.start_ts_ms < b.start_ts_ms then true
  else if b.start_ts_ms < a.start_ts_ms then false
  else strLeB a.symbol b.symbol

/-- Sorted insertion by the frame sort key. -/
def insertFrame (f : Frame) : List Frame → List Frame
  | [] => [f]
  | g :: rest => if frameKeyLeB f g then f :: g :: rest else g :: insertFrame f rest

/-- `frames.sort(key=...)` (the keys are pairwise distinct after dedup, so
any comparison sort produces the same list). -/
def sortFrames : List Frame → List Frame
  | [] => []
  | f :: rest => insertFrame f (sortFrames rest)

/-- Python `xs[i:]`. -/
def pySliceFrom (i : Int) (xs : List Frame) : List Frame :=
  if i < 0 then xs.drop (Int.ofNat xs.length + i).toNat else xs.drop i.toNat

/-- `if len(frames) > max_frames: frames = frames[-max_frames:]`. -/
def truncateFrames (max_frames : Int) (frames : List Frame) : List Frame :=
  if max_frames < Int.ofNat frames.length then pySliceFrom (-max_frames) frames
  else frames

/-- `for i, frame in enumerate(frames, start=1): frame["seq"] = i`. -/
def reseqFrom : Int → List Frame → List Frame
  | _, [] => []
  | i, f :: rest => { f with seq := i } :: reseqFrom (i + 1) rest

/-- `converter.convert_records_to_frames`. -/
def convert_records_to_frames (records : List RawRecord) (max_frames : Int) :
    Option (List Frame) :=
  match convertLoop records 0 [] with
  | none => none
  | some deduped =>
      some (reseqFrom 1 (truncateFrames max_frames (sortFrames (deduped.map Prod.snd))))

/-- Specification-side reading of "the record that appears latest in the
input order": the frame produced (with its original 1-based sequence number)
by the last input record that passes the guard and yields the given dedup
key. -/
def lastFrameFor : List RawRecord → Nat → (String × Int) → Option Frame
  | [], _, _ => none
  | row :: rest, idx, key =>
      match lastFrameFor rest (idx + 1) key with
      | some f => some f
      | none =>
          if to_code row.symbol_code = "" ∨ row.time = "" then none
          else
            match map_row_to_frame (to_code row.symbol_code) row (Int.ofNat (idx + 1)) with
            | none => none
            | some f => if frameKey f = key then some f else none

/-- A concrete raw record. -/
def wRecA : RawRecord :=
  { symbol_code := "600519", time := "2026-02-13 09:31:00",
    openv := some ⟨1488, 1⟩, closev := some ⟨1490, 1⟩, highv := some ⟨1491, 1⟩,
    lowv := some ⟨1486, 1⟩, volumev := some ⟨1000, 1⟩, amountv := some ⟨100000, 1⟩ }

/-- The same key as `wRecA` with a different close (the later record must
win). -/
def wRecB : RawRecord := { wRecA with closev := some ⟨1500, 1⟩ }

/-- A record for another symbol. -/
def wRecC : RawRecord :=
  { symbol_code := "000001", time := "2026-02-13 09:31:00",
    openv := some ⟨12, 1⟩, closev := some ⟨13, 1⟩, highv := some ⟨13, 1⟩,
    lowv := some ⟨12, 1⟩, volumev := some ⟨10, 1⟩, amountv := some ⟨12500, 1⟩ }

/-- Concrete input with a duplicated key (`wRecB` repeats `wRecA`'s key). -/
def wRecsC3 : List RawRecord := [wRecA, wRecC, wRecB]

/-- The frames the converter produces for `wRecsC3`. -/
def wOutC3 : List Frame := (convert_records_to_frames wRecsC3 20000).getD []

/-! ### Supporting lemmas -/

theorem pyIntMax_240_toNat (t : Int) : 240 ≤ (pyIntMax t 240).toNat := by
  unfold pyIntMax
  split <;> omega

theorem listTail_of_le {α : Type} (n : Int) (xs : List α) (h : xs.length ≤ n.toNat) :
    listTail n xs = xs := by
  unfold listTail
  have h0 : xs.length - n.toNat = 0 := by omega
  rw [h0, List.drop_zero]

theorem listTail_nil {α : Type} (n : Int) : listTail n ([] : List α) = [] := by
  unfold listTail
  simp

theorem getLast?_drop_of_lt {α : Type} {k : Nat} {xs : List α} (h : k < xs.length) :
    (xs.drop k).getLast? = xs.getLast? := by
  conv_rhs => rw [← List.take_append_drop k xs]
  rw [List.getLast?_append]
  cases hgl : (xs.drop k).getLast? with
  | none =>
      have hnil : xs.drop k = [] := List.getLast?_eq_none_iff.mp hgl
      have : xs.length - k = 0 := by simpa using congrArg List.length hnil
      omega
  | some a => simp [Option.or]

theorem getLast?_map_pf {α β : Type} (f : α → β) (l : List α) :
    (l.map f).getLast? = l.getLast?.map f := by
  induction l with
  | nil => rfl
  | cons a l ih =>
      cases l with
      | nil => rfl
      | cons b l' =>
          simp only [List.map_cons, List.getLast?_cons_cons] at ih ⊢
          exact ih

theorem list_isEmpty_false_of_length_pos {α : Type} {l : List α} (h : 0 < l.length) :
    l.isEmpty = false := by
  cases l with
  | nil => simp at h
  | cons a l => rfl

theorem normalize_minute_rows_length (code : String) (rows : List HistRow) :
    (normalize_minute_rows code rows).length = rows.length := by
  simp [normalize_minute_rows]

theorem normalize_minute_rows_time (code : String) (rows : List HistRow) :
    (normalize_minute_rows code rows).getLast?.map MinuteRow.time =
      rows.getLast?.map HistRow.time := by
  unfold normalize_minute_rows
  rw [getLast?_map_pf]
  cases rows.getLast? <;> rfl

theorem lexLtB_irrefl (a : List Char) : lexLtB a a = false := by
  induction a with
  | nil => rfl
  | cons c cs ih => simp [lexLtB, ih]

theorem lexLtB_trans {a b c : List Char} (hab : lexLtB a b = true)
    (hbc : lexLtB b c = true) : lexLtB a c = true := by
  induction a generalizing b c with
  | nil =>
    cases b with
    | nil => simp [lexLtB] at hab
    | cons y ys =>
      cases c with
      | nil => simp [lexLtB] at hbc
      | cons z zs => simp [lexLtB]
  | cons x xs ih =>
    cases b with
    | nil => simp [lexLtB] at hab
    | cons y ys =>
      cases c with
      | nil => simp [lexLtB] at hbc
      | cons z zs =>
        simp only [lexLtB] at hab hbc ⊢
        by_cases hxy : x = y
        · subst hxy
          simp only [if_pos rfl] at hab
          by_cases hxz : x = z
          · subst hxz
            simp only [if_pos rfl] at hbc ⊢
            exact ih hab hbc
          · by_cases hyz : x = z
            · exact absurd hyz hxz
            · simp only [if_neg hxz]
              simpa [if_neg hxz] using hbc
        · simp only [if_neg hxy] at hab
          by_cases hyz : y = z
          · subst hyz
            simp only [if_neg hxy]
            exact hab
          · simp only [if_neg hyz] at hbc
            by_cases hxz : x = z
            · subst hxz
              exfalso
              have : x.toNat < x.toNat := Nat.lt_trans (by simpa using hab) (by simpa using hbc)
              exact Nat.lt_irrefl _ this
            · simp only [if_neg hxz]
              exact decide_eq_true (Nat.lt_trans (of_decide_eq_true hab) (of_decide_eq_true hbc))

theorem char_toNat_inj {c d : Char} (h : c.toNat = d.toNat) : c = d := by
  have hv : c.val = d.val := by
    apply UInt32.ext
    simpa [Char.toNat] using h
  cases c; cases d
  simp only at hv
  subst hv
  rfl

theorem lexLtB_total (a b : List Char) :
    lexLtB a b = true ∨ a = b ∨ lexLtB b a = true := by
  induction a generalizing b with
  | nil =>
    cases b with
    | nil => exact Or.inr (Or.inl rfl)
    | cons y ys => exact Or.inl (by simp [lexLtB])
  | cons x xs ih =>
    cases b with
    | nil => exact Or.inr (Or.inr (by simp [lexLtB]))
    | cons y ys =>
      by_cases hxy : x = y
      · subst hxy
        rcases ih ys with h | h | h
        · exact Or.inl (by simp [lexLtB, h])
        · exact Or.inr (Or.inl (by rw [h]))
        · exact Or.inr (Or.inr (by simp [lexLtB, h]))
      · rcases Nat.lt_trichotomy x.toNat y.toNat with h | h | h
        · exact Or.inl (by simp [lexLtB, if_neg hxy, h])
        · exact absurd (char_toNat_inj h) hxy
        · refine Or.inr (Or.inr ?_)
          have hyx : ¬ y = x := fun he => hxy he.symm
          simp [lexLtB, if_neg hyx, h]

theorem string_data_inj {a b : String} (h : a.data = b.data) : a = b := by
  cases a; cases b; exact congrArg String.mk h

theorem strLtB_irrefl (a : String) : strLtB a a = false := lexLtB_irrefl a.data

theorem strLtB_trans {a b c : String} (hab : strLtB a b = true)
    (hbc : strLtB b c = true) : strLtB a c = true := lexLtB_trans hab hbc

theorem strLtB_total (a b : String) :
    strLtB a b = true ∨ a = b ∨ strLtB b a = true := by
  rcases lexLtB_total a.data b.data with h | h | h
  · exact Or.inl h
  · exact Or.inr (Or.inl (string_data_inj h))
  · exact Or.inr (Or.inr h)

theorem strLtB_empty_left {b : String} (h : b ≠ "") : strLtB "" b = true := by
  unfold strLtB lexLtB
  cases hb : b.data with
  | nil => exact absurd (string_data_inj (by simpa using hb)) h
  | cons c cs => rfl

theorem strLtB_empty_right (a : String) : strLtB a "" = false := by
  unfold strLtB lexLtB
  cases a.data <;> rfl

theorem strLeB_refl (a : String) : strLeB a a = true := by
  simp [strLeB, strLtB_irrefl]

theorem strLeB_of_strLtB {a b : String} (h : strLtB a b = true) : strLeB a b = true := by
  simp only [strLeB, Bool.not_eq_true']
  by_cases hba : strLtB b a = true
  · exact absurd (strLtB_trans h hba) (by simp [strLtB_irrefl])
  · simpa using hba

theorem strLeB_trans {a b c : String} (hab : strLeB a b = true)
    (hbc : strLeB b c = true) : strLeB a c = true := by
  simp only [strLeB, Bool.not_eq_true'] at hab hbc ⊢
  by_cases hca : strLtB c a = true
  · rcases strLtB_total a b with h | h | h
    · rcases strLtB_total b c with h2 | h2 | h2
      · exact absurd (strLtB_trans h2 hca) (by simp [hab])
      · subst h2; exact absurd hca (by simp [hab])
      · exact absurd h2 (by simp [hbc])
    · subst h; exact absurd hca (by simp [hbc])
    · exact absurd h (by simp [hab])
  · simpa using hca

theorem strLtB_of_not_le {a b : String} (h : strLeB a b = false) : strLtB b a = true := by
  simpa [strLeB] using h

theorem strLtB_le_trans {a b c : String} (hab : strLtB a b = true)
    (hbc : strLeB b c = true) : strLtB a c = true := by
  simp only [strLeB, Bool.not_eq_true'] at hbc
  rcases strLtB_total b c with h | h | h
  · exact strLtB_trans hab h
  · subst h; exact hab
  · exact absurd h (by simp [hbc])

theorem strLeB_lt_trans {a b c : String} (hab : strLeB a b = true)
    (hbc : strLtB b c = true) : strLtB a c = true := by
  simp only [strLeB, Bool.not_eq_true'] at hab
  rcases strLtB_total a b with h | h | h
  · exact strLtB_trans h hbc
  · subst h; exact hbc
  · exact absurd h (by simp [hab])

theorem strLeB_empty_any (b : String) : strLeB "" b = true := by
  simp [strLeB, strLtB_empty_right]

theorem pyFloat_le_def (a b : PyFloat) : a ≤ b ↔ a.num * b.den ≤ b.num * a.den := Iff.rfl

theorem pyFloat_lt_def (a b : PyFloat) : a < b ↔ a.num * b.den < b.num * a.den := Iff.rfl

theorem zero_le_pyFloat_iff (v : PyFloat) : (0 : PyFloat) ≤ v ↔ 0 ≤ v.num := by
  show (0 : Int) * v.den ≤ v.num * 1 ↔ 0 ≤ v.num
  omega

theorem zero_lt_pyFloat_iff (v : PyFloat) : (0 : PyFloat) < v ↔ 0 < v.num := by
  show (0 : Int) * v.den < v.num * 1 ↔ 0 < v.num
  omega

theorem pyFloat_num_zero : (0 : PyFloat).num = 0 := rfl

theorem zero_le_pyMax_zero (v : PyFloat) : (0 : PyFloat) ≤ pyMax 0 v := by
  unfold pyMax
  by_cases h : (0 : PyFloat) < v
  · rw [if_pos h, zero_le_pyFloat_iff]
    exact Int.le_of_lt ((zero_lt_pyFloat_iff v).1 h)
  · rw [if_neg h, zero_le_pyFloat_iff, pyFloat_num_zero]

theorem not_zero_lt_zero_pyFloat : ¬ (0 : PyFloat) < (0 : PyFloat) := by
  rw [zero_lt_pyFloat_iff, pyFloat_num_zero]
  omega

theorem pyMax_zero_idem (v : PyFloat) : pyMax 0 (pyMax 0 v) = pyMax 0 v := by
  unfold pyMax
  by_cases h : (0 : PyFloat) < v
  · simp only [if_pos h]
  · simp only [if_neg h, if_neg not_zero_lt_zero_pyFloat]

theorem alookup_aset_self {κ α : Type} [DecidableEq κ] (d : List (κ × α)) (k : κ) (v : α) :
    alookup (aset d k v) k = some v := by
  induction d with
  | nil => simp [aset, alookup]
  | cons p rest ih =>
    obtain ⟨k', v'⟩ := p
    by_cases h : k' = k
    · simp [aset, if_pos h, alookup]
    · simp [aset, if_neg h, alookup, if_neg h, ih]

theorem alookup_aset_other {κ α : Type} [DecidableEq κ] (d : List (κ × α)) (k k' : κ) (v : α)
    (h : k ≠ k') : alookup (aset d k v) k' = alookup d k' := by
  induction d with
  | nil => simp [aset, alookup, if_neg h]
  | cons p rest ih =>
    obtain ⟨k0, v0⟩ := p
    by_cases h0 : k0 = k
    · subst h0
      simp [aset, alookup, if_neg h, ih]
    · simp only [aset, if_neg h0, alookup]
      by_cases h1 : k0 = k'
      · simp [if_pos h1]
      · simp [if_neg h1, ih]

theorem mem_aset {κ α : Type} [DecidableEq κ] {d : List (κ × α)} {k : κ} {v : α}
    {p : κ × α} (hp : p ∈ aset d k v) : p = (k, v) ∨ p ∈ d := by
  induction d with
  | nil =>
    simp [aset] at hp
    exact Or.inl hp
  | cons q rest ih =>
    obtain ⟨k0, v0⟩ := q
    by_cases h0 : k0 = k
    · simp only [aset, if_pos h0, List.mem_cons] at hp
      rcases hp with h | h
      · exact Or.inl h
      · exact Or.inr (List.mem_cons_of_mem _ h)
    · simp only [aset, if_neg h0, List.mem_cons] at hp
      rcases hp with h | h
      · subst h; exact Or.inr (List.mem_cons_self _ _)
      · rcases ih h with h2 | h2
        · exact Or.inl h2
        · exact Or.inr (List.mem_cons_of_mem _ h2)

/-! ### Claim theorems: fetch-level (C7, C8, C10) and symbol classification (C9) -/

/-- C7: if the primary minute-history fetcher raises and the secondary
(alternate minute endpoint) fetcher returns two well-formed rows, then
`fetch_minute_tail` returns exactly those two rows (their normalizations), in
order, each tagged with the secondary source's tag; and if both fetchers
raise, `fetch_minute_tail` raises an error whose message concatenates both
failure causes. -/
theorem fetch_minute_tail_secondary_fallback (code : String) (tail_bars : Int)
    (e1 e2 : String) (r1 r2 : MinApiRow) :
    fetch_minute_tail code tail_bars (.error e1) (.ok [r1, r2]) =
      .ok (normalize_minute_rows_from_minute_api (to_code code) [r1, r2])
    ∧ (normalize_minute_rows_from_minute_api (to_code code) [r1, r2]).map MinuteRow.source
        = ["akshare.stock_zh_a_minute", "akshare.stock_zh_a_minute"]
    ∧ (normalize_minute_rows_from_minute_api (to_code code) [r1, r2]).map MinuteRow.time
        = [r1.time, r2.time]
    ∧ fetch_minute_tail code tail_bars (.error e1) (.error e2) =
        .error (strJoin "; " ["hist_min_em: " ++ e1, "stock_zh_a_minute: " ++ e2]) := by
  have htail : listTail (pyIntMax tail_bars MIN_RECOVERY_BARS) [r1, r2] = [r1, r2] := by
    apply listTail_of_le
    have hm : MIN_RECOVERY_BARS = (240 : Int) := rfl
    rw [hm]
    have := pyIntMax_240_toNat tail_bars
    simp only [List.length_cons, List.length_nil]
    omega
  refine ⟨?_, by simp [normalize_minute_rows_from_minute_api], by
    simp [normalize_minute_rows_from_minute_api], by rfl⟩
  simp only [fetch_minute_tail, secondMinuteStage, MIN_RECOVERY_BARS] at htail ⊢
  rw [htail]
  simp [normalize_minute_rows_from_minute_api]

/-- C8: `fetch_minute_tail` computes its lookback as
`max(tail_bars, MIN_RECOVERY_BARS)` with `MIN_RECOVERY_BARS = 240`; given a
primary source returning 300 well-formed rows and `tail_bars = 8`, the result
contains at least 240 rows and the last returned row's timestamp equals the
latest input row's timestamp. -/
theorem fetch_minute_tail_recovery_window (code : String)
    (minuteApi : Except String (List MinApiRow)) (rows : List HistRow)
    (h : rows.length = 300) :
    MIN_RECOVERY_BARS = 240 ∧
    ∃ out, fetch_minute_tail code 8 (.ok rows) minuteApi = .ok out
      ∧ 240 ≤ out.length
      ∧ out.getLast?.map MinuteRow.time = rows.getLast?.map HistRow.time := by
  refine ⟨rfl, normalize_minute_rows (to_code code) (listTail (pyIntMax 8 MIN_RECOVERY_BARS) rows), ?_, ?_, ?_⟩
  · have hlb : pyIntMax 8 MIN_RECOVERY_BARS = 240 := by decide
    have hne : (normalize_minute_rows (to_code code) (listTail (pyIntMax 8 MIN_RECOVERY_BARS) rows)).isEmpty = false := by
      apply list_isEmpty_false_of_length_pos
      rw [normalize_minute_rows_length]
      unfold listTail
      rw [hlb]
      simp only [List.length_drop]
      omega
    simp [fetch_minute_tail, hne]
  · rw [normalize_minute_rows_length]
    unfold listTail
    have hlb : pyIntMax 8 MIN_RECOVERY_BARS = 240 := by decide
    rw [hlb]
    simp only [List.length_drop]
    omega
  · rw [normalize_minute_rows_time]
    unfold listTail
    have hlb : pyIntMax 8 MIN_RECOVERY_BARS = 240 := by decide
    rw [hlb]
    rw [getLast?_drop_of_lt (by omega)]

/-- C8 witness: a concrete 300-row primary result. -/
theorem fetch_minute_tail_recovery_window_witness :
    MIN_RECOVERY_BARS = 240 ∧
    ∃ out,
      fetch_minute_tail "600519" 8
          (.ok (List.replicate 300
            ({ time := "2026-02-13 09:31:00", openv := some 10, closev := some 10,
               highv := some 10, lowv := some 10, volumev := some 10,
               amountv := some 10, avgv := some 10 } : HistRow)))
          (.ok []) = .ok out
      ∧ 240 ≤ out.length
      ∧ out.getLast?.map MinuteRow.time =
          (List.replicate 300
            ({ time := "2026-02-13 09:31:00", openv := some 10, closev := some 10,
               highv := some 10, lowv := some 10, volumev := some 10,
               amountv := some 10, avgv := some 10 } : HistRow)).getLast?.map HistRow.time :=
  fetch_minute_tail_recovery_window "600519" (.ok []) _ (by rw [List.length_replicate])

/-- C10: if both minute-bar fetchers succeed but yield zero normalized rows,
`fetch_minute_tail` returns an empty list and does not raise; the
both-sources-failed error is raised only when at least one fetcher actually
threw an exception. -/
theorem fetch_minute_tail_empty_silent (code : String) (tail_bars : Int) :
    fetch_minute_tail code tail_bars (.ok []) (.ok []) = .ok []
    ∧ ∀ (hist : Except String (List HistRow)) (minuteApi : Except String (List MinApiRow))
        (msg : String),
        fetch_minute_tail code tail_bars hist minuteApi = .error msg →
          exceptIsOk hist = false ∨ exceptIsOk minuteApi = false := by
  constructor
  · unfold fetch_minute_tail secondMinuteStage
    simp [listTail_nil, normalize_minute_rows, normalize_minute_rows_from_minute_api]
  · intro hist minuteApi msg h
    cases hist with
    | error e => exact Or.inl rfl
    | ok rows =>
        cases minuteApi with
        | error e => exact Or.inr rfl
        | ok rows2 =>
            exfalso
            simp only [fetch_minute_tail, secondMinuteStage] at h
            split at h
            · split at h
              · exact absurd h (by simp)
              · exact absurd h (by simp)
            · exact absurd h (by simp)

/-- C10 witness: a concrete run where an error is raised (primary threw). -/
theorem fetch_minute_tail_empty_silent_witness :
    exceptIsOk (Except.error "blocked" : Except String (List HistRow)) = false
    ∨ exceptIsOk (Except.ok [] : Except String (List MinApiRow)) = false :=
  (fetch_minute_tail_empty_silent "600519" 8).2 (.error "blocked") (.ok [])
    "hist_min_em: blocked" (by rfl)

/-- C9 (as stated) is false: `"510050"` is a normalized 6-digit code starting
with `'5'`, but the derived venue-qualified identifier is `"510050.SZ"` (not
`.SH`) and the derived exchange is `"SZSE"` (not SSE): `to_onlytrade_symbol`
and `exchange_from_code` treat only codes starting with `'6'` as
Shanghai-listed. -/
theorem venue_classification_counterexample :
    to_code "510050" = "510050"
    ∧ listStarts ['5'] (to_code "510050").data = true
    ∧ to_onlytrade_symbol "510050" = "510050.SZ"
    ∧ to_onlytrade_symbol "510050" ≠ "510050.SH"
    ∧ exchange_from_code "510050" = "SZSE"
    ∧ exchange_from_code "510050" ≠ "SSE" := by
  decide

/-- C9 (amended): the `sh`/`sz` venue marker used for the alternate minute
endpoint (`_to_prefixed_symbol`) classifies codes starting with 5, 6 or 9 as
Shanghai-listed, but the venue-qualified identifier (`to_onlytrade_symbol`)
and the exchange (`exchange_from_code`) classify only codes starting with 6
as Shanghai-listed (suffix `.SH` / exchange SSE); all other codes get
`.SZ` / SZSE. -/
theorem venue_classification (code : String) :
    (listStarts ['6'] (to_code code).data = true →
      to_onlytrade_symbol code = to_code code ++ ".SH" ∧ exchange_from_code code = "SSE")
    ∧ (listStarts ['6'] (to_code code).data = false →
      to_onlytrade_symbol code = to_code code ++ ".SZ" ∧ exchange_from_code code = "SZSE")
    ∧ ((listStarts ['5'] (to_code code).data || listStarts ['6'] (to_code code).data
          || listStarts ['9'] (to_code code).data) = true →
      to_prefixed_symbol code = "sh" ++ to_code code)
    ∧ ((listStarts ['5'] (to_code code).data || listStarts ['6'] (to_code code).data
          || listStarts ['9'] (to_code code).data) = false →
      to_prefixed_symbol code = "sz" ++ to_code code) := by
  refine ⟨fun h6 => ?_, fun h6 => ?_, fun h569 => ?_, fun h569 => ?_⟩
  · constructor <;> simp [to_onlytrade_symbol, exchange_from_code, h6]
  · constructor <;> simp [to_onlytrade_symbol, exchange_from_code, h6]
  · simp [to_prefixed_symbol, h569]
  · simp only [Bool.or_eq_false_iff] at h569
    simp [to_prefixed_symbol, h569.1.1, h569.1.2, h569.2]

/-- C9 witness: concrete classifications on both sides of the split. -/
theorem venue_classification_witness :
    (to_onlytrade_symbol "600519" = to_code "600519" ++ ".SH"
      ∧ exchange_from_code "600519" = "SSE")
    ∧ to_prefixed_symbol "510050" = "sh" ++ to_code "510050"
    ∧ (to_onlytrade_symbol "510050" = to_code "510050" ++ ".SZ"
      ∧ exchange_from_code "510050" = "SZSE") :=
  ⟨(venue_classification "600519").1 (by decide),
   (venue_classification "510050").2.2.1 (by decide),
   (venue_classification "510050").2.1 (by decide)⟩

/-! ### Forward-only append: invariant machinery for C1 -/

theorem strLeB_empty_right_iff (t : String) : strLeB t "" = true ↔ t = "" := by
  constructor
  · intro h
    by_contra hne
    have hlt := strLtB_empty_left hne
    simp [strLeB, hlt] at h
  · intro h
    subst h
    exact strLeB_refl ""

theorem timesFor_append (app₁ app₂ : List (String × MinuteRow)) (sym : String) :
    timesFor (app₁ ++ app₂) sym = timesFor app₁ sym ++ timesFor app₂ sym := by
  simp [timesFor, List.filter_append]

theorem timesFor_single_self (code : String) (row : MinuteRow) :
    timesFor [(code, row)] code = [row.time] := by
  simp [timesFor]

theorem timesFor_single_other {code sym : String} (h : ¬ code = sym) (row : MinuteRow) :
    timesFor [(code, row)] sym = [] := by
  simp [timesFor, h]

theorem chain_append_single {l : List String} {a : String}
    (hl : StrIncr l) (ha : ∀ t ∈ l, strLtB t a = true) : StrIncr (l ++ [a]) := by
  unfold StrIncr at hl ⊢
  rw [List.chain'_append]
  refine ⟨hl, List.chain'_singleton _, ?_⟩
  intro x hx y hy
  simp only [List.head?_cons, Option.mem_def, Option.some.injEq] at hy
  subst hy
  exact ha x (List.mem_of_mem_getLast? hx)

/-- Appending one gated candidate (time non-empty, checkpoint empty or
strictly below) preserves the forward-only invariant for every code. -/
theorem fwdFor_append_one {cp0 lt : List (String × String)}
    {app : List (String × MinuteRow)} {code : String} {row : MinuteRow}
    (hinv : ∀ sym, FwdFor cp0 lt app sym)
    (htime : row.time ≠ "")
    (hgt : cpTimeFor lt code = "" ∨ strLtB (cpTimeFor lt code) row.time = true) :
    ∀ sym, FwdFor cp0 (aset lt code row.time) (app ++ [(code, row)]) sym := by
  intro sym
  by_cases hcs : code = sym
  · subst hcs
    obtain ⟨hchain, hcp0, hcur, hmono⟩ := hinv code
    have hmem_lt : ∀ t ∈ timesFor app code, strLtB t row.time = true := by
      intro t ht
      rcases hgt with hempty | hlt
      · exfalso
        have hle := hcur t ht
        rw [hempty, strLeB_empty_right_iff] at hle
        have := hcp0 t ht
        rw [hle] at this
        rw [strLtB_empty_right] at this
        exact Bool.false_ne_true this
      · exact strLeB_lt_trans (hcur t ht) hlt
    have hcp0_new : strLtB (cpTimeFor cp0 code) row.time = true := by
      rcases hgt with hempty | hlt
      · have : cpTimeFor cp0 code = "" := by
          rw [hempty, strLeB_empty_right_iff] at hmono
          exact hmono
        rw [this]
        exact strLtB_empty_left htime
      · exact strLeB_lt_trans hmono hlt
    have hcur_new : cpTimeFor (aset lt code row.time) code = row.time := by
      unfold cpTimeFor
      rw [alookup_aset_self]
      rfl
    refine ⟨?_, ?_, ?_, ?_⟩
    · rw [timesFor_append, timesFor_single_self]
      exact chain_append_single hchain hmem_lt
    · rw [timesFor_append, timesFor_single_self]
      intro t ht
      rcases List.mem_append.mp ht with h | h
      · exact hcp0 t h
      · rw [List.mem_singleton.mp h]
        exact hcp0_new
    · rw [timesFor_append, timesFor_single_self, hcur_new]
      intro t ht
      rcases List.mem_append.mp ht with h | h
      · exact strLeB_of_strLtB (hmem_lt t h)
      · rw [List.mem_singleton.mp h]
        exact strLeB_refl _
    · rw [hcur_new]
      exact strLeB_of_strLtB hcp0_new
  · obtain ⟨hchain, hcp0, hcur, hmono⟩ := hinv sym
    have hts : timesFor (app ++ [(code, row)]) sym = timesFor app sym := by
      rw [timesFor_append, timesFor_single_other hcs, List.append_nil]
    have hlt : cpTimeFor (aset lt code row.time) sym = cpTimeFor lt sym := by
      unfold cpTimeFor
      rw [alookup_aset_other _ _ _ _ hcs]
    exact ⟨hts ▸ hchain, hts ▸ hcp0, by rw [hts, hlt]; exact hcur, by rw [hlt]; exact hmono⟩

/-- The checkpoint-gated row loop preserves the forward-only invariant. -/
theorem appendRows_fwd {cp0 : List (String × String)} (code : String)
    (rows : List MinuteRow) :
    ∀ (lt : List (String × String)) (app : List (String × MinuteRow)) (w : Bool),
      (∀ sym, FwdFor cp0 lt app sym) →
      ∀ sym,
        FwdFor cp0 (appendRows code rows lt app w).1 (appendRows code rows lt app w).2.1 sym := by
  induction rows with
  | nil =>
      intro lt app w hinv sym
      simpa [appendRows] using hinv sym
  | cons row rest ih =>
      intro lt app w hinv sym
      unfold appendRows
      by_cases h1 : row.time = ""
      · simp only [if_pos h1]
        exact ih lt app w hinv sym
      · simp only [if_neg h1]
        by_cases h2 : (alookup lt code).getD "" ≠ "" ∧ strLeB row.time ((alookup lt code).getD "") = true
        · simp only [if_pos h2]
          exact ih lt app w hinv sym
        · simp only [if_neg h2]
          apply ih
          apply fwdFor_append_one hinv h1
          rw [Classical.not_and_iff_or_not_not] at h2
          rcases h2 with h | h
          · exact Or.inl (by simpa [cpTimeFor] using h)
          · exact Or.inr (strLtB_of_not_le (by simpa [cpTimeFor] using Bool.not_eq_true _ ▸ h))

/-- Tier 3 never touches the log, the checkpoint maps or the remembered
minute rows. -/
theorem quoteTier3_frame (code pe : String) (fbe : Option String) (st : CollectState) :
    (quoteTier3 code pe fbe st).1.appended = st.appended
    ∧ (quoteTier3 code pe fbe st).1.last_time = st.last_time
    ∧ (quoteTier3 code pe fbe st).1.last_vol = st.last_vol
    ∧ (quoteTier3 code pe fbe st).1.last_turn = st.last_turn
    ∧ (quoteTier3 code pe fbe st).1.latest_minute = st.latest_minute := by
  unfold quoteTier3
  cases alookup st.latest_minute code <;> simp

/-- The quote stage never touches the log, the checkpoint maps or the
remembered minute rows. -/
theorem quoteStage_frame (code : String) (spot : Nat → Except String (List Quote))
    (e : SymEnv) (st : CollectState) :
    (quoteStage code spot e st).1.appended = st.appended
    ∧ (quoteStage code spot e st).1.last_time = st.last_time
    ∧ (quoteStage code spot e st).1.last_vol = st.last_vol
    ∧ (quoteStage code spot e st).1.last_turn = st.last_turn
    ∧ (quoteStage code spot e st).1.latest_minute = st.latest_minute := by
  obtain ⟨lt, lv, ltn, app, qr, er, sm, sc, lm, rp⟩ := st
  unfold quoteStage
  cases e.bidAskResult with
  | ok q => simp
  | error pe =>
      cases sm with
      | some m =>
          cases hq : fetch_quote_snapshot_from_spot_map code m with
          | ok q => simp [hq]
          | error s2 =>
              simp only [hq]
              exact quoteTier3_frame code pe (some s2) _
      | none =>
          cases hs : spot sc with
          | ok rows =>
              simp only [hs]
              cases hq : fetch_quote_snapshot_from_spot_map code (load_spot_quote_map rows) with
              | ok q => simp [hq]
              | error s2 =>
                  simp only [hq]
                  exact quoteTier3_frame code pe (some s2) _
          | error se =>
              simp only [hs]
              exact quoteTier3_frame code pe (some se) _

/-- The tracker stage never touches the log or the bar-time checkpoint. -/
theorem trackerStage_frame (code : String) (q : Option Quote) (st : CollectState) :
    (trackerStage code q st).appended = st.appended
    ∧ (trackerStage code q st).last_time = st.last_time
    ∧ (trackerStage code q st).latest_minute = st.latest_minute := by
  unfold trackerStage
  cases q <;> simp

/-- The synthesizer preserves the forward-only invariant. -/
theorem synthStage_fwd {cp0 : List (String × String)} (code : String) (e : SymEnv)
    (q : Option Quote) (w : Bool) (st : CollectState)
    (hinv : ∀ sym, FwdFor cp0 st.last_time st.appended sym) :
    ∀ sym,
      FwdFor cp0 (synthStage code e q w st).last_time (synthStage code e q w st).appended sym := by
  unfold synthStage
  cases q with
  | none => exact hinv
  | some quote =>
      by_cases hw : w
      · simp only [if_pos hw]; exact hinv
      · simp only [if_neg hw]
        by_cases hm : e.marketOpen
        · simp only [if_pos hm]
          by_cases hg : e.nowMinute ≠ "" ∧
              ((alookup st.last_time code).getD "" = "" ∨
                strLtB ((alookup st.last_time code).getD "") e.nowMinute = true)
          · simp only [if_pos hg]
            exact fwdFor_append_one hinv hg.1 hg.2
          · simp only [if_neg hg]; exact hinv
        · simp only [if_neg hm]; exact hinv

/-- The minute stage preserves the forward-only invariant. -/
theorem minuteStage_fwd {cp0 : List (String × String)} (code : String) (tail_bars : Int)
    (e : SymEnv) (st : CollectState)
    (hinv : ∀ sym, FwdFor cp0 st.last_time st.appended sym) :
    ∀ sym,
      FwdFor cp0 (minuteStage code tail_bars e st).1.last_time
        (minuteStage code tail_bars e st).1.appended sym := by
  unfold minuteStage
  cases hfm : fetch_minute_tail code tail_bars e.histResult e.minuteApiResult with
  | error err => exact hinv
  | ok minute_rows =>
      simp only [hfm]
      have hfwd := @appendRows_fwd cp0 code minute_rows st.last_time st.appended false hinv
      rcases har : appendRows code minute_rows st.last_time st.appended false with ⟨lt', app', w'⟩
      rw [har] at hfwd
      cases hgl : minute_rows.getLast? with
      | none => simpa [har] using hfwd
      | some r => simpa [har] using hfwd

/-- Processing one symbol preserves the forward-only invariant. -/
theorem processSymbol_fwd {cp0 : List (String × String)}
    (env : String → SymEnv) (spot : Nat → Except String (List Quote)) (tail_bars : Int)
    (st : CollectState) (symbol : String)
    (hinv : ∀ sym, FwdFor cp0 st.last_time st.appended sym) :
    ∀ sym,
      FwdFor cp0 (processSymbol env spot tail_bars st symbol).last_time
        (processSymbol env spot tail_bars st symbol).appended sym := by
  have h1 := @minuteStage_fwd cp0 (to_code symbol) tail_bars (env (to_code symbol)) st hinv
  unfold processSymbol
  rcases hms : minuteStage (to_code symbol) tail_bars (env (to_code symbol)) st with ⟨st1, nw⟩
  rw [hms] at h1
  simp only [hms]
  rcases hqs : quoteStage (to_code symbol) spot (env (to_code symbol)) st1 with ⟨st2, q, tier, skip⟩
  have hqf := quoteStage_frame (to_code symbol) spot (env (to_code symbol)) st1
  rw [hqs] at hqf
  simp only [hqs]
  have hst2 : ∀ s, FwdFor cp0 st2.last_time st2.appended s := by
    intro s
    rw [hqf.2.1, hqf.1]
    exact h1 s
  by_cases hskip : skip
  · simp only [if_pos hskip]
    exact hst2
  · simp only [if_neg hskip]
    intro sym
    have hsyn := @synthStage_fwd cp0 (to_code symbol) (env (to_code symbol)) q nw
      { st2 with reports := st2.reports ++ [⟨to_code symbol, tier, q⟩] } hst2
    have htf := trackerStage_frame (to_code symbol) q
      (synthStage (to_code symbol) (env (to_code symbol)) q nw
        { st2 with reports := st2.reports ++ [⟨to_code symbol, tier, q⟩] })
    rw [htf.1, htf.2.1]
    exact hsyn sym

/-- Folding the per-symbol processing over any symbol list preserves the
forward-only invariant. -/
theorem foldl_processSymbol_fwd {cp0 : List (String × String)}
    (env : String → SymEnv) (spot : Nat → Except String (List Quote)) (tail_bars : Int)
    (symbols : List String) :
    ∀ st : CollectState, (∀ sym, FwdFor cp0 st.last_time st.appended sym) →
    ∀ sym,
      FwdFor cp0 (symbols.foldl (processSymbol env spot tail_bars) st).last_time
        (symbols.foldl (processSymbol env spot tail_bars) st).appended sym := by
  induction symbols with
  | nil => intro st h sym; simpa using h sym
  | cons x rest ih =>
      intro st h
      rw [List.foldl_cons]
      exact ih _ (processSymbol_fwd env spot tail_bars st x h)

/-- C1: for every symbol, a candidate bar (real or synthetic) is appended to
the raw minute log only when its timestamp is non-empty and strictly greater
than the checkpoint's last-bar time at that moment, and the checkpoint is
advanced on append; consequently the appended timestamps for any one
collected code are strictly increasing within a pass, and no timestamp at or
below the code's checkpoint value at pass start is ever appended. -/
theorem run_collection_forward_only (env : String → SymEnv)
    (spot : Nat → Except String (List Quote)) (symbols : List String)
    (tail_bars : Int) (cp : Checkpoint) (sym : String) :
    StrIncr (appendedTimesFor (run_collection env spot symbols tail_bars cp) sym)
    ∧ ∀ t ∈ appendedTimesFor (run_collection env spot symbols tail_bars cp) sym,
        strLtB (cpTimeFor cp.last_time_by_symbol sym) t = true := by
  have hinit : ∀ s, FwdFor cp.last_time_by_symbol (initState cp).last_time
      (initState cp).appended s := by
    intro s
    refine ⟨?_, ?_, ?_, ?_⟩
    · simp [timesFor, initState, StrIncr]
    · simp [timesFor, initState]
    · simp [timesFor, initState]
    · exact strLeB_refl _
  have h := foldl_processSymbol_fwd env spot tail_bars symbols (initState cp) hinit sym
  exact ⟨h.1, h.2.1⟩

/-- C1 witness: a concrete pass appending one bar above an empty checkpoint. -/
theorem run_collection_forward_only_witness :
    strLtB (cpTimeFor wCpEmpty.last_time_by_symbol "600519") "2026-02-13 09:31:00" = true :=
  (run_collection_forward_only wEnvOpen wSpotFail ["600519"] 8 wCpEmpty "600519").2
    "2026-02-13 09:31:00" (by decide)

/-! ### C5: the lazy market-wide snapshot -/

/-- The minute stage never touches the spot-map cache or its call counter. -/
theorem minuteStage_spot_frame (code : String) (tail_bars : Int) (e : SymEnv)
    (st : CollectState) :
    (minuteStage code tail_bars e st).1.spot_map = st.spot_map
    ∧ (minuteStage code tail_bars e st).1.spot_calls = st.spot_calls := by
  unfold minuteStage
  cases hfm : fetch_minute_tail code tail_bars e.histResult e.minuteApiResult with
  | error err => simp
  | ok minute_rows =>
      rcases har : appendRows code minute_rows st.last_time st.appended false with ⟨lt', app', w'⟩
      cases hgl : minute_rows.getLast? <;> simp [hgl, har]

/-- The synthesizer never touches the spot-map cache or its call counter. -/
theorem synthStage_spot_frame (code : String) (e : SymEnv) (q : Option Quote) (w : Bool)
    (st : CollectState) :
    (synthStage code e q w st).spot_map = st.spot_map
    ∧ (synthStage code e q w st).spot_calls = st.spot_calls := by
  unfold synthStage
  cases q with
  | none => exact ⟨rfl, rfl⟩
  | some quote =>
      by_cases hw : w
      · simp [hw]
      · simp only [if_neg hw]
        by_cases hm : e.marketOpen
        · simp only [if_pos hm]
          split <;> simp
        · simp [hm]

/-- The tracker stage never touches the spot-map cache or its call counter. -/
theorem trackerStage_spot_frame (code : String) (q : Option Quote) (st : CollectState) :
    (trackerStage code q st).spot_map = st.spot_map
    ∧ (trackerStage code q st).spot_calls = st.spot_calls := by
  unfold trackerStage
  cases q <;> simp

/-- Tier 3 never touches the spot-map cache or its call counter. -/
theorem quoteTier3_spot_frame (code pe : String) (fbe : Option String) (st : CollectState) :
    (quoteTier3 code pe fbe st).1.spot_map = st.spot_map
    ∧ (quoteTier3 code pe fbe st).1.spot_calls = st.spot_calls := by
  unfold quoteTier3
  cases alookup st.latest_minute code <;> simp

/-- The quote stage preserves the spot-fetch invariant. -/
theorem quoteStage_spotInv (code : String) (spot : Nat → Except String (List Quote))
    (e : SymEnv) (st : CollectState) (hinv : SpotInv spot st) :
    SpotInv spot (quoteStage code spot e st).1 := by
  obtain ⟨lt, lv, ltn, app, qr, er, sm, sc, lm, rp⟩ := st
  obtain ⟨h1, h2⟩ := hinv
  unfold quoteStage
  cases e.bidAskResult with
  | ok q => exact ⟨h1, h2⟩
  | error pe =>
      cases sm with
      | some m =>
          cases hq : fetch_quote_snapshot_from_spot_map code m with
          | ok q =>
              simp only [hq]
              exact ⟨h1, by intro h; exact absurd h (by simp)⟩
          | error s2 =>
              simp only [hq]
              have hf := quoteTier3_spot_frame code pe (some s2)
                { last_time := lt, last_vol := lv, last_turn := ltn, appended := app,
                  quote_rows := qr, errors := er, spot_map := some m, spot_calls := sc,
                  latest_minute := lm, reports := rp }
              refine ⟨?_, ?_⟩
              · rw [hf.2]; exact h1
              · rw [hf.1, hf.2]; intro h; exact absurd h (by simp)
      | none =>
          cases hs : spot sc with
          | ok rows =>
              simp only [hs]
              cases hq : fetch_quote_snapshot_from_spot_map code (load_spot_quote_map rows) with
              | ok q =>
                  simp only [hq]
                  refine ⟨?_, ?_⟩
                  · intro i hi
                    exact h2 rfl i (Nat.lt_of_succ_lt_succ hi)
                  · intro h; exact absurd h (by simp)
              | error s2 =>
                  simp only [hq]
                  have hf := quoteTier3_spot_frame code pe (some s2)
                    { last_time := lt, last_vol := lv, last_turn := ltn, appended := app,
                      quote_rows := qr, errors := er,
                      spot_map := some (load_spot_quote_map rows), spot_calls := sc + 1,
                      latest_minute := lm, reports := rp }
                  refine ⟨?_, ?_⟩
                  · rw [hf.2]
                    intro i hi
                    exact h2 rfl i (Nat.lt_of_succ_lt_succ hi)
                  · rw [hf.1, hf.2]
                    intro h; exact absurd h (by simp)
          | error se =>
              simp only [hs]
              have hf := quoteTier3_spot_frame code pe (some se)
                { last_time := lt, last_vol := lv, last_turn := ltn, appended := app,
                  quote_rows := qr, errors := er, spot_map := none, spot_calls := sc + 1,
                  latest_minute := lm, reports := rp }
              refine ⟨?_, ?_⟩
              · rw [hf.2]
                intro i hi
                exact h2 rfl i (Nat.lt_of_succ_lt_succ hi)
              · rw [hf.1, hf.2]
                intro _ i hi
                rcases Nat.lt_succ_iff_lt_or_eq.mp hi with h | h
                · exact h2 rfl i h
                · subst h; rw [hs]; rfl

/-- Processing one symbol preserves the spot-fetch invariant. -/
theorem processSymbol_spotInv (env : String → SymEnv)
    (spot : Nat → Except String (List Quote)) (tail_bars : Int)
    (st : CollectState) (symbol : String) (hinv : SpotInv spot st) :
    SpotInv spot (processSymbol env spot tail_bars st symbol) := by
  unfold processSymbol
  have hmf := minuteStage_spot_frame (to_code symbol) tail_bars (env (to_code symbol)) st
  rcases hms : minuteStage (to_code symbol) tail_bars (env (to_code symbol)) st with ⟨st1, nw⟩
  rw [hms] at hmf
  simp only [hms]
  have hinv1 : SpotInv spot st1 := by
    obtain ⟨h1, h2⟩ := hinv
    refine ⟨by rw [hmf.2]; exact h1, by rw [hmf.1, hmf.2]; exact h2⟩
  have hq := quoteStage_spotInv (to_code symbol) spot (env (to_code symbol)) st1 hinv1
  rcases hqs : quoteStage (to_code symbol) spot (env (to_code symbol)) st1 with ⟨st2, q, tier, skip⟩
  rw [hqs] at hq
  simp only [hqs]
  by_cases hskip : skip
  · simpa [hskip] using hq
  · simp only [if_neg hskip]
    have hsf := synthStage_spot_frame (to_code symbol) (env (to_code symbol)) q nw
      { st2 with reports := st2.reports ++ [⟨to_code symbol, tier, q⟩] }
    have htf := trackerStage_spot_frame (to_code symbol) q
      (synthStage (to_code symbol) (env (to_code symbol)) q nw
        { st2 with reports := st2.reports ++ [⟨to_code symbol, tier, q⟩] })
    obtain ⟨h1, h2⟩ := hq
    refine ⟨?_, ?_⟩
    · rw [htf.2, hsf.2]; exact h1
    · rw [htf.1, htf.2, hsf.1, hsf.2]; exact h2

/-- C5 (amended): within a single collection pass, once a market-wide
snapshot fetch succeeds it is cached and never fetched again, so every
spot-fetch attempt except possibly the last one failed — in particular at
most one attempt succeeds.  (The claim's unconditional "fetched at most
once" fails when the fetch itself raises: each symbol falling through to
Tier 2 retries it, see the counterexample.) -/
theorem spot_fetch_at_most_one_success (env : String → SymEnv)
    (spot : Nat → Except String (List Quote)) (symbols : List String)
    (tail_bars : Int) (cp : Checkpoint) :
    ∀ i, i + 1 < (run_collection env spot symbols tail_bars cp).spot_calls →
      exceptIsOk (spot i) = false := by
  suffices h : ∀ (st : CollectState), SpotInv spot st →
      SpotInv spot (symbols.foldl (processSymbol env spot tail_bars) st) by
    have hinit : SpotInv spot (initState cp) := by
      refine ⟨?_, ?_⟩ <;> intro _ <;> simp [initState]
    exact (h (initState cp) hinit).1
  induction symbols with
  | nil => intro st h; simpa using h
  | cons x rest ih =>
      intro st h
      rw [List.foldl_cons]
      exact ih _ (processSymbol_spotInv env spot tail_bars st x h)

/-- C5 (as stated) is false: with two symbols whose direct quote fetches
fail and a spot fetch that raises, `load_spot_quote_map` is invoked twice in
one pass. -/
theorem spot_fetch_counterexample :
    (run_collection wEnvAllFail wSpotFail ["600519", "000001"] 8 wCpEmpty).spot_calls = 2
    ∧ ¬ (run_collection wEnvAllFail wSpotFail ["600519", "000001"] 8 wCpEmpty).spot_calls ≤ 1 := by
  decide

/-- C5 witness: in the two-failed-attempts pass, the non-final attempt indeed
failed. -/
theorem spot_fetch_at_most_one_success_witness : exceptIsOk (wSpotFail 0) = false :=
  spot_fetch_at_most_one_success wEnvAllFail wSpotFail ["600519", "000001"] 8 wCpEmpty 0
    (by decide)

/-! ### C4: cumulative trackers versus quote tiers -/

/-- The minute stage never touches the trackers or the reports. -/
theorem minuteStage_track_frame (code : String) (tail_bars : Int) (e : SymEnv)
    (st : CollectState) :
    (minuteStage code tail_bars e st).1.last_vol = st.last_vol
    ∧ (minuteStage code tail_bars e st).1.last_turn = st.last_turn
    ∧ (minuteStage code tail_bars e st).1.reports = st.reports := by
  unfold minuteStage
  cases hfm : fetch_minute_tail code tail_bars e.histResult e.minuteApiResult with
  | error err => simp
  | ok minute_rows =>
      rcases har : appendRows code minute_rows st.last_time st.appended false with ⟨lt', app', w'⟩
      cases hgl : minute_rows.getLast? <;> simp [hgl, har]

/-- The synthesizer never touches the trackers or the reports. -/
theorem synthStage_track_frame (code : String) (e : SymEnv) (q : Option Quote) (w : Bool)
    (st : CollectState) :
    (synthStage code e q w st).last_vol = st.last_vol
    ∧ (synthStage code e q w st).last_turn = st.last_turn
    ∧ (synthStage code e q w st).reports = st.reports := by
  unfold synthStage
  cases q with
  | none => exact ⟨rfl, rfl, rfl⟩
  | some quote =>
      by_cases hw : w
      · simp [hw]
      · simp only [if_neg hw]
        by_cases hm : e.marketOpen
        · simp only [if_pos hm]
          split <;> simp
        · simp [hm]

/-- The quote stage leaves the trackers and the reports unchanged, and its
outcome is exactly one of: Tier-1/Tier-3 quote (no skip), Tier-2 quote
(skip), or no quote at all. -/
theorem quoteStage_cases (code : String) (spot : Nat → Except String (List Quote))
    (e : SymEnv) (st : CollectState) :
    (quoteStage code spot e st).1.last_vol = st.last_vol
    ∧ (quoteStage code spot e st).1.last_turn = st.last_turn
    ∧ (quoteStage code spot e st).1.reports = st.reports
    ∧ ((∃ qq, (quoteStage code spot e st).2.1 = some qq
          ∧ (quoteStage code spot e st).2.2.2 = false
          ∧ ((quoteStage code spot e st).2.2.1 = some .tier1
              ∨ (quoteStage code spot e st).2.2.1 = some .tier3))
        ∨ (∃ qq, (quoteStage code spot e st).2.1 = some qq
            ∧ (quoteStage code spot e st).2.2.2 = true
            ∧ (quoteStage code spot e st).2.2.1 = some .tier2)
        ∨ ((quoteStage code spot e st).2.1 = none
            ∧ (quoteStage code spot e st).2.2.1 = none
            ∧ (quoteStage code spot e st).2.2.2 = false)) := by
  obtain ⟨lt, lv, ltn, app, qr, er, sm, sc, lm, rp⟩ := st
  unfold quoteStage quoteTier3
  cases e.bidAskResult with
  | ok q => exact ⟨rfl, rfl, rfl, Or.inl ⟨q, rfl, rfl, Or.inl rfl⟩⟩
  | error pe =>
      dsimp only
      cases sm with
      | some m =>
          dsimp only
          cases hq : fetch_quote_snapshot_from_spot_map code m with
          | ok q =>
              exact ⟨rfl, rfl, rfl, Or.inr (Or.inl ⟨q, rfl, rfl, rfl⟩)⟩
          | error s2 =>
              dsimp only
              cases hlm : alookup lm code with
              | some mr =>
                  exact ⟨rfl, rfl, rfl, Or.inl ⟨_, rfl, rfl, Or.inr rfl⟩⟩
              | none =>
                  exact ⟨rfl, rfl, rfl, Or.inr (Or.inr ⟨rfl, rfl, rfl⟩)⟩
      | none =>
          dsimp only
          cases hs : spot sc with
          | ok rows =>
              dsimp only
              cases hq : fetch_quote_snapshot_from_spot_map code (load_spot_quote_map rows) with
              | ok q =>
                  exact ⟨rfl, rfl, rfl, Or.inr (Or.inl ⟨q, rfl, rfl, rfl⟩)⟩
              | error s2 =>
                  dsimp only
                  cases hlm : alookup lm code with
                  | some mr =>
                      exact ⟨rfl, rfl, rfl, Or.inl ⟨_, rfl, rfl, Or.inr rfl⟩⟩
                  | none =>
                      exact ⟨rfl, rfl, rfl, Or.inr (Or.inr ⟨rfl, rfl, rfl⟩)⟩
          | error se =>
              dsimp only
              cases hlm : alookup lm code with
              | some mr =>
                  exact ⟨rfl, rfl, rfl, Or.inl ⟨_, rfl, rfl, Or.inr rfl⟩⟩
              | none =>
                  exact ⟨rfl, rfl, rfl, Or.inr (Or.inr ⟨rfl, rfl, rfl⟩)⟩

/-- The tracker stage leaves the reports unchanged. -/
theorem trackerStage_reports (code : String) (q : Option Quote) (st : CollectState) :
    (trackerStage code q st).reports = st.reports := by
  unfold trackerStage
  cases q <;> rfl

/-- The synthesize-then-track tail of one symbol step leaves the reports
unchanged. -/
theorem tail_reports (code : String) (e : SymEnv) (q : Option Quote) (nw : Bool)
    (st : CollectState) :
    (trackerStage code q (synthStage code e q nw st)).reports = st.reports := by
  rw [trackerStage_reports, (synthStage_track_frame code e q nw st).2.2]

/-- The synthesize-then-track tail does not move tracker entries of other
codes. -/
theorem tail_vol_other {sym code : String} (h : sym ≠ code) (e : SymEnv)
    (q : Option Quote) (nw : Bool) (st : CollectState) :
    alookup (trackerStage code q (synthStage code e q nw st)).last_vol sym
      = alookup st.last_vol sym
    ∧ alookup (trackerStage code q (synthStage code e q nw st)).last_turn sym
      = alookup st.last_turn sym := by
  have hsf := synthStage_track_frame code e q nw st
  cases q with
  | none =>
      constructor
      · show alookup (synthStage code e none nw st).last_vol sym = _
        rw [hsf.1]
      · show alookup (synthStage code e none nw st).last_turn sym = _
        rw [hsf.2.1]
  | some qq =>
      constructor
      · show alookup (aset (synthStage code e (some qq) nw st).last_vol code qq.volume_lot) sym = _
        rw [alookup_aset_other _ _ _ _ (fun hh => h hh.symm), hsf.1]
      · show alookup (aset (synthStage code e (some qq) nw st).last_turn code qq.turnover_cny) sym = _
        rw [alookup_aset_other _ _ _ _ (fun hh => h hh.symm), hsf.2.1]

/-- When a quote is present, the synthesize-then-track tail records its
cumulative values under the processed code. -/
theorem tail_vol_self (code : String) (e : SymEnv) (qq : Quote) (nw : Bool)
    (st : CollectState) :
    alookup (trackerStage code (some qq) (synthStage code e (some qq) nw st)).last_vol code
      = some qq.volume_lot
    ∧ alookup (trackerStage code (some qq) (synthStage code e (some qq) nw st)).last_turn code
      = some qq.turnover_cny := by
  constructor
  · show alookup (aset (synthStage code e (some qq) nw st).last_vol code qq.volume_lot) code = _
    exact alookup_aset_self _ _ _
  · show alookup (aset (synthStage code e (some qq) nw st).last_turn code qq.turnover_cny) code = _
    exact alookup_aset_self _ _ _

/-- When no quote was obtained, the synthesize-then-track tail leaves both
tracker maps unchanged. -/
theorem tail_vol_none (code : String) (e : SymEnv) (nw : Bool) (st : CollectState) :
    (trackerStage code none (synthStage code e none nw st)).last_vol = st.last_vol
    ∧ (trackerStage code none (synthStage code e none nw st)).last_turn = st.last_turn := by
  have hsf := synthStage_track_frame code e none nw st
  exact ⟨hsf.1, hsf.2.1⟩

/-- Anatomy of one symbol step: exactly one report is appended, tracker
entries of other codes are untouched, and the processed code's tracker
entries follow its quote tier. -/
theorem processSymbol_anatomy (env : String → SymEnv)
    (spot : Nat → Except String (List Quote)) (tail_bars : Int)
    (st : CollectState) (symbol : String) :
    ∃ (tier : Option QuoteTier) (q : Option Quote),
      (processSymbol env spot tail_bars st symbol).reports
          = st.reports ++ [⟨to_code symbol, tier, q⟩]
      ∧ (∀ sym, sym ≠ to_code symbol →
          alookup (processSymbol env spot tail_bars st symbol).last_vol sym
              = alookup st.last_vol sym
          ∧ alookup (processSymbol env spot tail_bars st symbol).last_turn sym
              = alookup st.last_turn sym)
      ∧ ((∃ qq, q = some qq ∧ (tier = some .tier1 ∨ tier = some .tier3)
            ∧ alookup (processSymbol env spot tail_bars st symbol).last_vol (to_code symbol)
                = some qq.volume_lot
            ∧ alookup (processSymbol env spot tail_bars st symbol).last_turn (to_code symbol)
                = some qq.turnover_cny)
          ∨ ((tier = some .tier2 ∨ (tier = none ∧ q = none))
              ∧ alookup (processSymbol env spot tail_bars st symbol).last_vol (to_code symbol)
                  = alookup st.last_vol (to_code symbol)
              ∧ alookup (processSymbol env spot tail_bars st symbol).last_turn (to_code symbol)
                  = alookup st.last_turn (to_code symbol))) := by
  have hmf := minuteStage_track_frame (to_code symbol) tail_bars (env (to_code symbol)) st
  unfold processSymbol
  rcases hms : minuteStage (to_code symbol) tail_bars (env (to_code symbol)) st with ⟨st1, nw⟩
  rw [hms] at hmf
  have hmv : st1.last_vol = st.last_vol := hmf.1
  have hmt : st1.last_turn = st.last_turn := hmf.2.1
  have hmr : st1.reports = st.reports := hmf.2.2
  simp only [hms]
  have hqc := quoteStage_cases (to_code symbol) spot (env (to_code symbol)) st1
  rcases hqs : quoteStage (to_code symbol) spot (env (to_code symbol)) st1 with ⟨st2, q, tier, skip⟩
  rw [hqs] at hqc
  obtain ⟨hv2, ht2, hr2, houtcome⟩ := hqc
  have hv2' : st2.last_vol = st1.last_vol := hv2
  have ht2' : st2.last_turn = st1.last_turn := ht2
  have hr2' : st2.reports = st1.reports := hr2
  simp only [hqs]
  rcases houtcome with ⟨qq, hq, hskip, htier⟩ | ⟨qq, hq, hskip, htier⟩ | ⟨hq, htier, hskip⟩
  · -- Tier 1 or Tier 3: tracker stage runs
    have hq' : q = some qq := hq
    have hskip' : skip = false := hskip
    have htier' : tier = some QuoteTier.tier1 ∨ tier = some QuoteTier.tier3 := htier
    subst hq' hskip'
    rw [if_neg Bool.false_ne_true]
    refine ⟨tier, some qq, ?_, ?_, ?_⟩
    · rw [tail_reports]
      show st2.reports ++ _ = _
      rw [hr2', hmr]
    · intro sym hsym
      have h2 := tail_vol_other hsym (env (to_code symbol)) (some qq) nw
        { st2 with reports := st2.reports ++ [⟨to_code symbol, tier, some qq⟩] }
      constructor
      · rw [h2.1]
        show alookup st2.last_vol sym = _
        rw [hv2', hmv]
      · rw [h2.2]
        show alookup st2.last_turn sym = _
        rw [ht2', hmt]
    · refine Or.inl ⟨qq, rfl, htier', ?_, ?_⟩
      · exact (tail_vol_self (to_code symbol) (env (to_code symbol)) qq nw _).1
      · exact (tail_vol_self (to_code symbol) (env (to_code symbol)) qq nw _).2
  · -- Tier 2: the `continue` path, trackers untouched
    have hq' : q = some qq := hq
    have hskip' : skip = true := hskip
    have htier' : tier = some QuoteTier.tier2 := htier
    subst hq' hskip'
    rw [if_pos rfl]
    refine ⟨tier, some qq, ?_, ?_, ?_⟩
    · show st2.reports ++ _ = _
      rw [hr2', hmr]
    · intro sym hsym
      constructor
      · show alookup st2.last_vol sym = _
        rw [hv2', hmv]
      · show alookup st2.last_turn sym = _
        rw [ht2', hmt]
    · refine Or.inr ⟨Or.inl htier', ?_, ?_⟩
      · show alookup st2.last_vol (to_code symbol) = _
        rw [hv2', hmv]
      · show alookup st2.last_turn (to_code symbol) = _
        rw [ht2', hmt]
  · -- no quote at all
    have hq' : q = none := hq
    have htier' : tier = none := htier
    have hskip' : skip = false := hskip
    subst hq' htier' hskip'
    rw [if_neg Bool.false_ne_true]
    have hnn := tail_vol_none (to_code symbol) (env (to_code symbol)) nw
      { st2 with reports := st2.reports ++ [⟨to_code symbol, none, none⟩] }
    refine ⟨none, none, ?_, ?_, ?_⟩
    · rw [tail_reports]
      show st2.reports ++ _ = _
      rw [hr2', hmr]
    · intro sym hsym
      constructor
      · rw [hnn.1]
        show alookup st2.last_vol sym = _
        rw [hv2', hmv]
      · rw [hnn.2]
        show alookup st2.last_turn sym = _
        rw [ht2', hmt]
    · refine Or.inr ⟨Or.inr ⟨rfl, rfl⟩, ?_, ?_⟩
      · rw [hnn.1]
        show alookup st2.last_vol (to_code symbol) = _
        rw [hv2', hmv]
      · rw [hnn.2]
        show alookup st2.last_turn (to_code symbol) = _
        rw [ht2', hmt]

/-- Folding the per-symbol processing over distinct codes preserves the
tracker invariant. -/
theorem foldl_trackInv (env : String → SymEnv) (spot : Nat → Except String (List Quote))
    (tail_bars : Int) (cp : Checkpoint) :
    ∀ (symbols : List String) (st : CollectState),
      (∀ r ∈ st.reports, r.code ∉ symbols.map to_code) →
      (symbols.map to_code).Nodup →
      TrackInv cp st →
      TrackInv cp (symbols.foldl (processSymbol env spot tail_bars) st) := by
  intro symbols
  induction symbols with
  | nil => intro st _ _ h; simpa using h
  | cons x rest ih =>
      intro st hfresh hnd hinv
      rw [List.foldl_cons]
      obtain ⟨tier, q, hrep, hother, houts⟩ := processSymbol_anatomy env spot tail_bars st x
      have hx_mem : to_code x ∈ (x :: rest).map to_code := by
        rw [List.map_cons]; exact List.mem_cons_self _ _
      have hold_ne : ∀ r ∈ st.reports, r.code ≠ to_code x := by
        intro r hr he
        exact hfresh r hr (he ▸ hx_mem)
      have hnd' : (to_code x ∉ rest.map to_code) ∧ (rest.map to_code).Nodup := by
        rw [List.map_cons] at hnd
        exact List.nodup_cons.mp hnd
      have hst_cp : alookup st.last_vol (to_code x)
            = alookup cp.last_quote_volume_lot_by_symbol (to_code x)
          ∧ alookup st.last_turn (to_code x)
            = alookup cp.last_quote_turnover_cny_by_symbol (to_code x) :=
        hinv.2 (to_code x) hold_ne
      apply ih
      · intro r hr
        rw [hrep] at hr
        rcases List.mem_append.mp hr with h | h
        · intro hmem
          exact hfresh r h (by rw [List.map_cons]; exact List.mem_cons_of_mem _ hmem)
        · rw [List.mem_singleton.mp h]
          exact hnd'.1
      · exact hnd'.2
      · constructor
        · intro r hr
          rw [hrep] at hr
          rcases List.mem_append.mp hr with h | h
          · -- an old report: its code differs from the processed one
            have hne := hold_ne r h
            have hlk := hother r.code hne
            obtain ⟨h13, h2t⟩ := hinv.1 r h
            constructor
            · intro q0 hq0 ht0
              rw [hlk.1, hlk.2]
              exact h13 q0 hq0 ht0
            · intro ht0
              rw [hlk.1, hlk.2]
              exact h2t ht0
          · -- the freshly appended report
            rw [List.mem_singleton.mp h]
            constructor
            · intro q0 hq0 ht0
              rcases houts with ⟨qq, hq', htier', hv, ht⟩ | ⟨htier2, hv, ht⟩
              · have : q0 = qq := by
                  rw [hq'] at hq0
                  exact (Option.some.injEq _ _ ▸ hq0.symm :)
                subst this
                exact ⟨hv, ht⟩
              · exfalso
                rcases htier2 with h2 | ⟨hn, _⟩
                · rcases ht0 with h13 | h13 <;> rw [h2] at h13 <;> simp at h13
                · rcases ht0 with h13 | h13 <;> rw [hn] at h13 <;> simp at h13
            · intro ht0
              rcases houts with ⟨qq, hq', htier', hv, ht⟩ | ⟨htier2, hv, ht⟩
              · exfalso
                rcases htier' with h13 | h13 <;> rw [h13] at ht0 <;> simp at ht0
              · rw [hv, ht]
                exact hst_cp
        · intro sym hsym
          have hsym_old : ∀ r ∈ st.reports, r.code ≠ sym := by
            intro r hr
            apply hsym
            rw [hrep]
            exact List.mem_append.mpr (Or.inl hr)
          have hsym_new : to_code x ≠ sym :=
            hsym ⟨to_code x, tier, q⟩
              (by rw [hrep]; exact List.mem_append.mpr (Or.inr (List.mem_singleton.mpr rfl)))
          have hlk := hother sym (fun he => hsym_new he.symm)
          rw [hlk.1, hlk.2]
          exact hinv.2 sym hsym_old

/-- C4 (amended): for every processed symbol occurrence (over pairwise
distinct codes), a quote obtained via Tier 1 (direct bid/ask) or Tier 3
(synthesized from the latest minute bar) has its cumulative volume and
turnover recorded in the final checkpoint's trackers; a quote obtained via
Tier 2 (market-wide spot map) does NOT update the trackers — processing of
that symbol stops right after the quote is recorded (`continue`), so the
trackers keep their pass-start values. -/
theorem tracker_update_by_tier (env : String → SymEnv)
    (spot : Nat → Except String (List Quote)) (symbols : List String)
    (tail_bars : Int) (cp : Checkpoint)
    (hnd : (symbols.map to_code).Nodup) :
    ∀ r ∈ (run_collection env spot symbols tail_bars cp).reports,
      (∀ q, r.quote = some q → (r.tier = some .tier1 ∨ r.tier = some .tier3) →
        alookup (run_collection env spot symbols tail_bars cp).last_vol r.code
            = some q.volume_lot
        ∧ alookup (run_collection env spot symbols tail_bars cp).last_turn r.code
            = some q.turnover_cny)
      ∧ (r.tier = some .tier2 →
        alookup (run_collection env spot symbols tail_bars cp).last_vol r.code
            = alookup cp.last_quote_volume_lot_by_symbol r.code
        ∧ alookup (run_collection env spot symbols tail_bars cp).last_turn r.code
            = alookup cp.last_quote_turnover_cny_by_symbol r.code) := by
  have hinit : TrackInv cp (initState cp) := by
    constructor
    · intro r hr
      simp [initState] at hr
    · intro sym _
      exact ⟨rfl, rfl⟩
  have h := foldl_trackInv env spot tail_bars cp symbols (initState cp)
    (by intro r hr; simp [initState] at hr) hnd hinit
  exact h.1

/-- C4 (as stated) is false: a quote obtained via Tier 2 (spot map) is
recorded in the quote rows, yet the final checkpoint's cumulative trackers
do not record its values (here they stay absent). -/
theorem tracker_update_counterexample :
    (run_collection wEnvAllFail wSpotOk ["600519"] 8 wCpEmpty).reports.map
        (fun r => (r.code, r.tier, r.quote.map Quote.volume_lot))
      = [("600519", some QuoteTier.tier2, some ⟨15000, 1⟩)]
    ∧ alookup (run_collection wEnvAllFail wSpotOk ["600519"] 8 wCpEmpty).last_vol "600519"
      = none
    ∧ alookup (run_collection wEnvAllFail wSpotOk ["600519"] 8 wCpEmpty).last_turn "600519"
      = none
    ∧ (none : Option PyFloat) ≠ some ⟨15000, 1⟩ := by
  decide

/-- C4 witness: a Tier-1 quote does land in the trackers. -/
theorem tracker_update_by_tier_witness :
    alookup (run_collection wEnvOpen wSpotFail ["600519"] 8 wCpEmpty).last_vol "600519"
        = some wQuote.volume_lot
    ∧ alookup (run_collection wEnvOpen wSpotFail ["600519"] 8 wCpEmpty).last_turn "600519"
        = some wQuote.turnover_cny :=
  (tracker_update_by_tier wEnvOpen wSpotFail ["600519"] 8 wCpEmpty (by decide)
      ⟨"600519", some QuoteTier.tier1, some wQuote⟩ (by decide)).1
    wQuote rfl (Or.inl rfl)

/-! ### C6: synthetic-bar flatness and clamped deltas -/

/-- Rows normalized from the primary endpoint carry its source tag. -/
theorem normalize_minute_rows_source {code : String} {rows : List HistRow}
    {r : MinuteRow} (h : r ∈ normalize_minute_rows code rows) :
    r.source = "akshare.stock_zh_a_hist_min_em" := by
  obtain ⟨a, _, rfl⟩ := List.mem_map.mp h
  rfl

/-- Rows normalized from the alternate endpoint carry its source tag. -/
theorem normalize_minute_rows_api_source {code : String} {rows : List MinApiRow}
    {r : MinuteRow} (h : r ∈ normalize_minute_rows_from_minute_api code rows) :
    r.source = "akshare.stock_zh_a_minute" := by
  obtain ⟨a, _, rfl⟩ := List.mem_map.mp h
  rfl

/-- Every row returned by `fetch_minute_tail` carries one of the two real
endpoint source tags. -/
theorem fetch_minute_tail_sources {code : String} {tail_bars : Int}
    {hist : Except String (List HistRow)} {minuteApi : Except String (List MinApiRow)}
    {rows : List MinuteRow}
    (h : fetch_minute_tail code tail_bars hist minuteApi = .ok rows) :
    ∀ r ∈ rows,
      r.source = "akshare.stock_zh_a_hist_min_em"
      ∨ r.source = "akshare.stock_zh_a_minute" := by
  intro r hr
  unfold fetch_minute_tail at h
  have hsecond : ∀ (errors : List String),
      secondMinuteStage (to_code code) (pyIntMax tail_bars MIN_RECOVERY_BARS) minuteApi errors
          = .ok rows →
      r.source = "akshare.stock_zh_a_hist_min_em" ∨ r.source = "akshare.stock_zh_a_minute" := by
    intro errors h2
    unfold secondMinuteStage at h2
    cases minuteApi with
    | ok arows =>
        dsimp only at h2
        split at h2
        · split at h2
          · have : rows = [] := (Except.ok.injEq _ _ ▸ h2 :).symm
            subst this
            simp at hr
          · exact absurd h2 (by simp)
        · have : rows = normalize_minute_rows_from_minute_api (to_code code)
              (listTail (pyIntMax tail_bars MIN_RECOVERY_BARS) arows) :=
            (Except.ok.injEq _ _ ▸ h2 :).symm
          subst this
          exact Or.inr (normalize_minute_rows_api_source hr)
    | error e => exact absurd h2 (by simp [secondMinuteStage])
  cases hist with
  | ok hrows =>
      dsimp only at h
      split at h
      · exact hsecond [] h
      · have : rows = normalize_minute_rows (to_code code)
            (listTail (pyIntMax tail_bars MIN_RECOVERY_BARS) hrows) :=
          (Except.ok.injEq _ _ ▸ h :).symm
        subst this
        exact Or.inl (normalize_minute_rows_source hr)
  | error e =>
      dsimp only at h
      exact hsecond _ h

/-- Everything the gated append loop adds comes from its input row list. -/
theorem appendRows_mem (code : String) (rows : List MinuteRow) :
    ∀ (lt : List (String × String)) (app : List (String × MinuteRow)) (w : Bool)
      (p : String × MinuteRow),
      p ∈ (appendRows code rows lt app w).2.1 → p ∈ app ∨ (p.1 = code ∧ p.2 ∈ rows) := by
  induction rows with
  | nil =>
      intro lt app w p hp
      exact Or.inl (by simpa [appendRows] using hp)
  | cons row rest ih =>
      intro lt app w p hp
      unfold appendRows at hp
      by_cases h1 : row.time = ""
      · simp only [if_pos h1] at hp
        rcases ih _ _ _ _ hp with h | ⟨hcode, hmem⟩
        · exact Or.inl h
        · exact Or.inr ⟨hcode, List.mem_cons_of_mem _ hmem⟩
      · simp only [if_neg h1] at hp
        by_cases h2 : (alookup lt code).getD "" ≠ "" ∧ strLeB row.time ((alookup lt code).getD "") = true
        · simp only [if_pos h2] at hp
          rcases ih _ _ _ _ hp with h | ⟨hcode, hmem⟩
          · exact Or.inl h
          · exact Or.inr ⟨hcode, List.mem_cons_of_mem _ hmem⟩
        · simp only [if_neg h2] at hp
          rcases ih _ _ _ _ hp with h | ⟨hcode, hmem⟩
          · rcases List.mem_append.mp h with h' | h'
            · exact Or.inl h'
            · rw [List.mem_singleton.mp h']
              exact Or.inr ⟨rfl, List.mem_cons_self _ _⟩
          · exact Or.inr ⟨hcode, List.mem_cons_of_mem _ hmem⟩

/-- Flatness and non-negativity of every synthesized row, by construction. -/
theorem build_synth_flat (code : String) (q : Quote) (mt : String)
    (vd ad : PyFloat) :
    (build_synthetic_minute_row_from_quote code q mt vd ad).openp = q.latest
    ∧ (build_synthetic_minute_row_from_quote code q mt vd ad).closep = q.latest
    ∧ (build_synthetic_minute_row_from_quote code q mt vd ad).highp = q.latest
    ∧ (build_synthetic_minute_row_from_quote code q mt vd ad).lowp = q.latest
    ∧ (build_synthetic_minute_row_from_quote code q mt vd ad).avg_price = q.latest
    ∧ (0 : PyFloat) ≤ (build_synthetic_minute_row_from_quote code q mt vd ad).volume_lot
    ∧ (0 : PyFloat) ≤ (build_synthetic_minute_row_from_quote code q mt vd ad).amount_cny :=
  ⟨rfl, rfl, rfl, rfl, rfl, zero_le_pyMax_zero vd, zero_le_pyMax_zero ad⟩

/-- Pass-level flatness invariant: every appended row carrying the synthetic
source tag is flat and has non-negative volume/turnover. -/
def SynthFlat (st : CollectState) : Prop :=
  ∀ p ∈ st.appended, p.2.source = "akshare.quote_synthetic_minute" →
    p.2.openp = p.2.closep ∧ p.2.highp = p.2.closep ∧ p.2.lowp = p.2.closep
    ∧ p.2.avg_price = p.2.closep
    ∧ (0 : PyFloat) ≤ p.2.volume_lot ∧ (0 : PyFloat) ≤ p.2.amount_cny

/-- Everything the minute stage appends comes from a successful
`fetch_minute_tail` result. -/
theorem minuteStage_appended_cases (code : String) (tail_bars : Int) (e : SymEnv)
    (st : CollectState) :
    ∀ p ∈ (minuteStage code tail_bars e st).1.appended,
      p ∈ st.appended
      ∨ (p.1 = code ∧ ∃ rows,
          fetch_minute_tail code tail_bars e.histResult e.minuteApiResult = .ok rows
          ∧ p.2 ∈ rows) := by
  intro p hp
  unfold minuteStage at hp
  cases hfm : fetch_minute_tail code tail_bars e.histResult e.minuteApiResult with
  | error err =>
      rw [hfm] at hp
      dsimp only at hp
      exact Or.inl hp
  | ok minute_rows =>
      rw [hfm] at hp
      dsimp only at hp
      cases hgl : minute_rows.getLast? with
      | none =>
          rw [hgl] at hp
          dsimp only at hp
          rcases har : appendRows code minute_rows st.last_time st.appended false
            with ⟨lt2, app2, w2⟩
          rw [har] at hp
          dsimp only at hp
          rcases appendRows_mem code minute_rows st.last_time st.appended false p
            (by rw [har]; exact hp) with h | ⟨hcode, hmem⟩
          · exact Or.inl h
          · exact Or.inr ⟨hcode, minute_rows, rfl, hmem⟩
      | some rlast =>
          rw [hgl] at hp
          dsimp only at hp
          rcases har : appendRows code minute_rows st.last_time st.appended false
            with ⟨lt2, app2, w2⟩
          rw [har] at hp
          dsimp only at hp
          rcases appendRows_mem code minute_rows st.last_time st.appended false p
            (by rw [har]; exact hp) with h | ⟨hcode, hmem⟩
          · exact Or.inl h
          · exact Or.inr ⟨hcode, minute_rows, rfl, hmem⟩

/-- One symbol step preserves the pass-level flatness invariant. -/
theorem processSymbol_synthFlat (env : String → SymEnv)
    (spot : Nat → Except String (List Quote)) (tail_bars : Int)
    (st : CollectState) (symbol : String) (hinv : SynthFlat st) :
    SynthFlat (processSymbol env spot tail_bars st symbol) := by
  intro p hp hsrc
  unfold processSymbol at hp
  dsimp only at hp
  rcases hms : minuteStage (to_code symbol) tail_bars (env (to_code symbol)) st with ⟨st1, nw⟩
  rw [hms] at hp
  dsimp only at hp
  rcases hqs : quoteStage (to_code symbol) spot (env (to_code symbol)) st1 with ⟨st2, q, tier, skip⟩
  rw [hqs] at hp
  dsimp only at hp
  have hqf := quoteStage_frame (to_code symbol) spot (env (to_code symbol)) st1
  rw [hqs] at hqf
  have hq_app : st2.appended = st1.appended := hqf.1
  have hold : p ∈ st2.appended →
      p.2.openp = p.2.closep ∧ p.2.highp = p.2.closep ∧ p.2.lowp = p.2.closep
      ∧ p.2.avg_price = p.2.closep
      ∧ (0 : PyFloat) ≤ p.2.volume_lot ∧ (0 : PyFloat) ≤ p.2.amount_cny := by
    intro hpm
    rw [hq_app] at hpm
    have hpm1 : p ∈ (minuteStage (to_code symbol) tail_bars (env (to_code symbol)) st).1.appended := by
      rw [hms]
      exact hpm
    rcases minuteStage_appended_cases (to_code symbol) tail_bars (env (to_code symbol)) st p hpm1
      with h | ⟨_, rows, hfm, hmem⟩
    · exact hinv p h hsrc
    · exfalso
      rcases fetch_minute_tail_sources hfm p.2 hmem with hs | hs <;>
        rw [hsrc] at hs <;> simp at hs
  cases skip with
  | true =>
      rw [if_pos rfl] at hp
      exact hold hp
  | false =>
      rw [if_neg Bool.false_ne_true] at hp
      rw [(trackerStage_frame (to_code symbol) q _).1] at hp
      unfold synthStage at hp
      cases q with
      | none =>
          dsimp only at hp
          exact hold hp
      | some quote =>
          dsimp only at hp
          cases nw with
          | true =>
              rw [if_pos rfl] at hp
              exact hold hp
          | false =>
              rw [if_neg Bool.false_ne_true] at hp
              cases hmo : (env (to_code symbol)).marketOpen with
              | false =>
                  rw [hmo] at hp
                  rw [if_neg Bool.false_ne_true] at hp
                  exact hold hp
              | true =>
                  rw [hmo] at hp
                  rw [if_pos rfl] at hp
                  set st2' := { st2 with
                    reports := st2.reports ++
                      [({ code := to_code symbol, tier := tier, quote := some quote } : SymReport)] }
                    with hst2'
                  by_cases hg : (env (to_code symbol)).nowMinute ≠ "" ∧
                      ((alookup st2'.last_time (to_code symbol)).getD "" = "" ∨
                        strLtB ((alookup st2'.last_time (to_code symbol)).getD "")
                          (env (to_code symbol)).nowMinute = true)
                  · rw [if_pos hg] at hp
                    dsimp only at hp
                    rcases List.mem_append.mp hp with h | h
                    · exact hold h
                    · rw [List.mem_singleton.mp h]
                      have hb := build_synth_flat (to_code symbol) quote
                        (env (to_code symbol)).nowMinute
                        (if (0 : PyFloat) ≤ (alookup st2'.last_vol (to_code symbol)).getD (-1)
                          then pyMax 0 (quote.volume_lot -
                            (alookup st2'.last_vol (to_code symbol)).getD (-1))
                          else 0)
                        (if (0 : PyFloat) ≤ (alookup st2'.last_turn (to_code symbol)).getD (-1)
                          then pyMax 0 (quote.turnover_cny -
                            (alookup st2'.last_turn (to_code symbol)).getD (-1))
                          else 0)
                      refine ⟨?_, ?_, ?_, ?_, hb.2.2.2.2.2.1, hb.2.2.2.2.2.2⟩
                      · rw [hb.1, hb.2.1]
                      · rw [hb.2.2.1, hb.2.1]
                      · rw [hb.2.2.2.1, hb.2.1]
                      · rw [hb.2.2.2.2.1, hb.2.1]
                  · rw [if_neg hg] at hp
                    exact hold hp

theorem pyMax_zero_zero : pyMax 0 0 = (0 : PyFloat) := by
  unfold pyMax
  rw [if_neg not_zero_lt_zero_pyFloat]

/-- Every pass keeps the flatness invariant. -/
theorem run_collection_synthFlat (env : String → SymEnv)
    (spot : Nat → Except String (List Quote)) (symbols : List String)
    (tail_bars : Int) (cp : Checkpoint) :
    SynthFlat (run_collection env spot symbols tail_bars cp) := by
  suffices h : ∀ (syms : List String) (st : CollectState), SynthFlat st →
      SynthFlat (syms.foldl (processSymbol env spot tail_bars) st) by
    apply h
    intro p hp
    simp [initState] at hp
  intro syms
  induction syms with
  | nil => intro st h; simpa using h
  | cons x rest ih =>
      intro st h
      rw [List.foldl_cons]
      exact ih _ (processSymbol_synthFlat env spot tail_bars st x h)

/-- C6 (amended): every synthesized minute bar is flat (open, high, low,
close and avg_price all equal the quote's latest price) and its
volume/turnover are always `≥ 0`; the volume/turnover deltas equal
`max(0, current_cumulative - previous_cumulative)` when the checkpoint's
last-observed cumulative value exists and is `≥ 0`, and are `0` (not the
full cumulative value) when it is absent — or, contrary to the claim's
formula, when a stored previous value is negative (the `-1` absence sentinel
conflates the two cases, see the counterexample). -/
theorem synthetic_bar_flat_and_deltas :
    (∀ (env : String → SymEnv) (spot : Nat → Except String (List Quote))
        (symbols : List String) (tail_bars : Int) (cp : Checkpoint),
      SynthFlat (run_collection env spot symbols tail_bars cp))
    ∧ (∀ (code : String) (e : SymEnv) (q : Quote) (st : CollectState),
        e.marketOpen = true →
        e.nowMinute ≠ "" →
        ((alookup st.last_time code).getD "" = "" ∨
          strLtB ((alookup st.last_time code).getD "") e.nowMinute = true) →
        ∃ row,
          (synthStage code e (some q) false st).appended = st.appended ++ [(code, row)]
          ∧ row.openp = q.latest ∧ row.closep = q.latest ∧ row.highp = q.latest
          ∧ row.lowp = q.latest ∧ row.avg_price = q.latest
          ∧ (0 : PyFloat) ≤ row.volume_lot ∧ (0 : PyFloat) ≤ row.amount_cny
          ∧ (∀ pv, alookup st.last_vol code = some pv →
              ((0 : PyFloat) ≤ pv → row.volume_lot = pyMax 0 (q.volume_lot - pv))
              ∧ (¬ (0 : PyFloat) ≤ pv → row.volume_lot = 0))
          ∧ (alookup st.last_vol code = none → row.volume_lot = 0)
          ∧ (∀ pt, alookup st.last_turn code = some pt →
              ((0 : PyFloat) ≤ pt → row.amount_cny = pyMax 0 (q.turnover_cny - pt))
              ∧ (¬ (0 : PyFloat) ≤ pt → row.amount_cny = 0))
          ∧ (alookup st.last_turn code = none → row.amount_cny = 0)) := by
  constructor
  · exact run_collection_synthFlat
  · intro code e q st hopen hmt hgt
    unfold synthStage
    dsimp only
    rw [if_neg Bool.false_ne_true, hopen, if_pos rfl, if_pos ⟨hmt, hgt⟩]
    refine ⟨_, rfl, rfl, rfl, rfl, rfl, rfl, zero_le_pyMax_zero _, zero_le_pyMax_zero _,
      ?_, ?_, ?_, ?_⟩
    · intro pv hpv
      rw [hpv]
      constructor
      · intro hnn
        show pyMax 0 (if (0 : PyFloat) ≤ (some pv).getD (-1) then _ else _) = _
        rw [Option.getD_some, if_pos hnn]
        exact pyMax_zero_idem _
      · intro hneg
        show pyMax 0 (if (0 : PyFloat) ≤ (some pv).getD (-1) then _ else _) = _
        rw [Option.getD_some, if_neg hneg]
        exact pyMax_zero_zero
    · intro hnone
      rw [hnone]
      show pyMax 0 (if (0 : PyFloat) ≤ (none : Option PyFloat).getD (-1)
          then pyMax 0 (q.volume_lot - (none : Option PyFloat).getD (-1)) else 0) = 0
      rw [Option.getD_none, if_neg (by decide)]
      exact pyMax_zero_zero
    · intro pt hpt
      rw [hpt]
      constructor
      · intro hnn
        show pyMax 0 (if (0 : PyFloat) ≤ (some pt).getD (-1) then _ else _) = _
        rw [Option.getD_some, if_pos hnn]
        exact pyMax_zero_idem _
      · intro hneg
        show pyMax 0 (if (0 : PyFloat) ≤ (some pt).getD (-1) then _ else _) = _
        rw [Option.getD_some, if_neg hneg]
        exact pyMax_zero_zero
    · intro hnone
      rw [hnone]
      show pyMax 0 (if (0 : PyFloat) ≤ (none : Option PyFloat).getD (-1)
          then pyMax 0 (q.turnover_cny - (none : Option PyFloat).getD (-1)) else 0) = 0
      rw [Option.getD_none, if_neg (by decide)]
      exact pyMax_zero_zero

/-- C6 (as stated) is false in the negative-previous-cumulative corner: with
a stored previous cumulative volume of `-5` and a current cumulative volume
of `10`, the synthesized bar's volume is `0`, not
`max(0, current - previous) = 15`. -/
theorem synthetic_delta_counterexample :
    ((run_collection wEnvSynth wSpotFail ["600519"] 8 wCpNegPrev).appended.map
        fun p => (p.2.source, p.2.volume_lot, p.2.amount_cny))
      = [("akshare.quote_synthetic_minute", (0 : PyFloat), (0 : PyFloat))]
    ∧ alookup wCpNegPrev.last_quote_volume_lot_by_symbol "600519" = some ⟨-5, 1⟩
    ∧ wQuoteSmall.volume_lot = ⟨10, 1⟩
    ∧ pyMax 0 (wQuoteSmall.volume_lot - ⟨-5, 1⟩) = ⟨15, 1⟩
    ∧ (0 : PyFloat) ≠ ⟨15, 1⟩ := by
  decide

/-- C6 witness: synthesis against a positive previous cumulative value. -/
theorem synthetic_bar_flat_and_deltas_witness :
    ∃ row,
      (synthStage "600519" (wEnvSynth "600519") (some wQuoteSmall) false wStPrev).appended
          = wStPrev.appended ++ [("600519", row)]
      ∧ row.openp = wQuoteSmall.latest ∧ row.closep = wQuoteSmall.latest
      ∧ row.highp = wQuoteSmall.latest ∧ row.lowp = wQuoteSmall.latest
      ∧ row.avg_price = wQuoteSmall.latest
      ∧ (0 : PyFloat) ≤ row.volume_lot ∧ (0 : PyFloat) ≤ row.amount_cny
      ∧ (∀ pv, alookup wStPrev.last_vol "600519" = some pv →
          ((0 : PyFloat) ≤ pv → row.volume_lot = pyMax 0 (wQuoteSmall.volume_lot - pv))
          ∧ (¬ (0 : PyFloat) ≤ pv → row.volume_lot = 0))
      ∧ (alookup wStPrev.last_vol "600519" = none → row.volume_lot = 0)
      ∧ (∀ pt, alookup wStPrev.last_turn "600519" = some pt →
          ((0 : PyFloat) ≤ pt → row.amount_cny = pyMax 0 (wQuoteSmall.turnover_cny - pt))
          ∧ (¬ (0 : PyFloat) ≤ pt → row.amount_cny = 0))
      ∧ (alookup wStPrev.last_turn "600519" = none → row.amount_cny = 0) :=
  synthetic_bar_flat_and_deltas.2 "600519" (wEnvSynth "600519") wQuoteSmall wStPrev
    rfl (by decide) (Or.inl (by decide))

/-! ### C2: checkpoint monotonicity, row coverage and the second pass -/

/-- The gated append loop never moves any checkpoint entry backwards. -/
theorem appendRows_cur_mono (code : String) (rows : List MinuteRow) :
    ∀ (lt : List (String × String)) (app : List (String × MinuteRow)) (w : Bool) (sym : String),
      strLeB (cpTimeFor lt sym) (cpTimeFor (appendRows code rows lt app w).1 sym) = true := by
  induction rows with
  | nil =>
      intro lt app w sym
      exact strLeB_refl _
  | cons row rest ih =>
      intro lt app w sym
      unfold appendRows
      by_cases h1 : row.time = ""
      · simp only [if_pos h1]
        exact ih lt app w sym
      · simp only [if_neg h1]
        by_cases h2 : (alookup lt code).getD "" ≠ "" ∧ strLeB row.time ((alookup lt code).getD "") = true
        · simp only [if_pos h2]
          exact ih lt app w sym
        · simp only [if_neg h2]
          have hstep : strLeB (cpTimeFor lt sym) (cpTimeFor (aset lt code row.time) sym) = true := by
            by_cases hcs : code = sym
            · subst hcs
              have hnew : cpTimeFor (aset lt code row.time) code = row.time := by
                unfold cpTimeFor
                rw [alookup_aset_self]
                rfl
              rw [hnew]
              rw [Classical.not_and_iff_or_not_not] at h2
              rcases h2 with h | h
              · have hempty : (alookup lt code).getD "" = "" := by
                  by_contra hne
                  exact h hne
                show strLeB (cpTimeFor lt code) row.time = true
                unfold cpTimeFor
                rw [hempty]
                exact strLeB_empty_any _
              · have hlt : strLtB ((alookup lt code).getD "") row.time = true :=
                  strLtB_of_not_le (Bool.not_eq_true _ ▸ h)
                exact strLeB_of_strLtB hlt
            · unfold cpTimeFor
              rw [alookup_aset_other _ _ _ _ hcs]
              exact strLeB_refl _
          exact strLeB_trans hstep (ih _ _ _ sym)

/-- Every fetched row's timestamp is at or below the checkpoint entry the
gated append loop leaves behind. -/
theorem appendRows_covers (code : String) (rows : List MinuteRow) :
    ∀ (lt : List (String × String)) (app : List (String × MinuteRow)) (w : Bool),
      ∀ r ∈ rows, strLeB r.time (cpTimeFor (appendRows code rows lt app w).1 code) = true := by
  induction rows with
  | nil =>
      intro lt app w r hr
      simp at hr
  | cons row rest ih =>
      intro lt app w r hr
      unfold appendRows
      by_cases h1 : row.time = ""
      · simp only [if_pos h1]
        rcases List.mem_cons.mp hr with h | h
        · rw [h, h1]
          exact strLeB_empty_any _
        · exact ih lt app w r h
      · simp only [if_neg h1]
        by_cases h2 : (alookup lt code).getD "" ≠ "" ∧ strLeB row.time ((alookup lt code).getD "") = true
        · simp only [if_pos h2]
          rcases List.mem_cons.mp hr with h | h
          · rw [h]
            exact strLeB_trans h2.2 (by
              have := appendRows_cur_mono code rest lt app w code
              unfold cpTimeFor at this ⊢
              exact this)
          · exact ih lt app w r h
        · simp only [if_neg h2]
          rcases List.mem_cons.mp hr with h | h
          · rw [h]
            have hset : cpTimeFor (aset lt code row.time) code = row.time := by
              unfold cpTimeFor
              rw [alookup_aset_self]
              rfl
            have hmono := appendRows_cur_mono code rest (aset lt code row.time)
              (app ++ [(code, row)]) true code
            rw [hset] at hmono
            exact hmono
          · exact ih _ _ _ r h

/-- The synthesizer never moves any checkpoint entry backwards. -/
theorem synthStage_cur_mono (code : String) (e : SymEnv) (q : Option Quote) (w : Bool)
    (st : CollectState) (sym : String) :
    strLeB (cpTimeFor st.last_time sym) (cpTimeFor (synthStage code e q w st).last_time sym)
      = true := by
  unfold synthStage
  cases q with
  | none => exact strLeB_refl _
  | some quote =>
      by_cases hw : w
      · simp only [if_pos hw]
        exact strLeB_refl _
      · simp only [if_neg hw]
        by_cases hm : e.marketOpen
        · simp only [if_pos hm]
          by_cases hg : e.nowMinute ≠ "" ∧
              ((alookup st.last_time code).getD "" = "" ∨
                strLtB ((alookup st.last_time code).getD "") e.nowMinute = true)
          · simp only [if_pos hg]
            by_cases hcs : code = sym
            · subst hcs
              have hnew : cpTimeFor (aset st.last_time code e.nowMinute) code = e.nowMinute := by
                unfold cpTimeFor
                rw [alookup_aset_self]
                rfl
              show strLeB (cpTimeFor st.last_time code)
                (cpTimeFor (aset st.last_time code e.nowMinute) code) = true
              rw [hnew]
              rcases hg.2 with h | h
              · show strLeB ((alookup st.last_time code).getD "") e.nowMinute = true
                rw [h]
                exact strLeB_empty_any _
              · exact strLeB_of_strLtB h
            · show strLeB (cpTimeFor st.last_time sym)
                (cpTimeFor (aset st.last_time code e.nowMinute) sym) = true
              unfold cpTimeFor
              rw [alookup_aset_other _ _ _ _ hcs]
              exact strLeB_refl _
          · simp only [if_neg hg]
            exact strLeB_refl _
        · simp only [if_neg hm]
          exact strLeB_refl _

/-- Processing one symbol never moves any checkpoint entry backwards. -/
theorem processSymbol_cur_mono (env : String → SymEnv)
    (spot : Nat → Except String (List Quote)) (tail_bars : Int)
    (st : CollectState) (symbol : String) (sym : String) :
    strLeB (cpTimeFor st.last_time sym)
      (cpTimeFor (processSymbol env spot tail_bars st symbol).last_time sym) = true := by
  unfold processSymbol
  dsimp only
  rcases hms : minuteStage (to_code symbol) tail_bars (env (to_code symbol)) st with ⟨st1, nw⟩
  have hm1 : strLeB (cpTimeFor st.last_time sym) (cpTimeFor st1.last_time sym) = true := by
    unfold minuteStage at hms
    cases hfm : fetch_minute_tail (to_code symbol) tail_bars (env (to_code symbol)).histResult
        (env (to_code symbol)).minuteApiResult with
    | error err =>
        rw [hfm] at hms
        dsimp only at hms
        have : st1.last_time = st.last_time := by
          rw [← (Prod.mk.injEq _ _ _ _).mp hms |>.1]
        rw [this]
        exact strLeB_refl _
    | ok minute_rows =>
        rw [hfm] at hms
        dsimp only at hms
        rcases har : appendRows (to_code symbol) minute_rows st.last_time st.appended false
          with ⟨lt2, app2, w2⟩
        have hmono := appendRows_cur_mono (to_code symbol) minute_rows st.last_time st.appended false sym
        rw [har] at hmono
        cases hgl : minute_rows.getLast? with
        | none =>
            rw [hgl] at hms
            dsimp only at hms
            rw [har] at hms
            dsimp only at hms
            have : st1.last_time = lt2 := by
              rw [← (Prod.mk.injEq _ _ _ _).mp hms |>.1]
            rw [this]
            exact hmono
        | some rlast =>
            rw [hgl] at hms
            dsimp only at hms
            rw [har] at hms
            dsimp only at hms
            have : st1.last_time = lt2 := by
              rw [← (Prod.mk.injEq _ _ _ _).mp hms |>.1]
            rw [this]
            exact hmono
  dsimp only
  rcases hqs : quoteStage (to_code symbol) spot (env (to_code symbol)) st1 with ⟨st2, q, tier, skip⟩
  dsimp only
  have hqf := quoteStage_frame (to_code symbol) spot (env (to_code symbol)) st1
  rw [hqs] at hqf
  have hq_lt : st2.last_time = st1.last_time := hqf.2.1
  cases skip with
  | true =>
      rw [if_pos rfl]
      show strLeB (cpTimeFor st.last_time sym) (cpTimeFor st2.last_time sym) = true
      rw [hq_lt]
      exact hm1
  | false =>
      rw [if_neg Bool.false_ne_true]
      have htf := trackerStage_frame (to_code symbol) q
        (synthStage (to_code symbol) (env (to_code symbol)) q nw
          { st2 with reports := st2.reports ++ [⟨to_code symbol, tier, q⟩] })
      rw [htf.2.1]
      have hsm := synthStage_cur_mono (to_code symbol) (env (to_code symbol)) q nw
        { st2 with reports := st2.reports ++ [⟨to_code symbol, tier, q⟩] } sym
      refine strLeB_trans ?_ hsm
      show strLeB (cpTimeFor st.last_time sym) (cpTimeFor st2.last_time sym) = true
      rw [hq_lt]
      exact hm1

/-- A whole pass never moves any checkpoint entry backwards. -/
theorem foldl_cur_mono (env : String → SymEnv) (spot : Nat → Except String (List Quote))
    (tail_bars : Int) (symbols : List String) :
    ∀ (st : CollectState) (sym : String),
      strLeB (cpTimeFor st.last_time sym)
        (cpTimeFor (symbols.foldl (processSymbol env spot tail_bars) st).last_time sym) = true := by
  induction symbols with
  | nil =>
      intro st sym
      exact strLeB_refl _
  | cons x rest ih =>
      intro st sym
      rw [List.foldl_cons]
      exact strLeB_trans (processSymbol_cur_mono env spot tail_bars st x sym) (ih _ sym)


/-- After the minute stage, every fetched row's timestamp is covered by the
processed code's checkpoint entry. -/
theorem minuteStage_covers (code : String) (tail_bars : Int) (e : SymEnv)
    (st : CollectState) (rows : List MinuteRow)
    (hfm : fetch_minute_tail code tail_bars e.histResult e.minuteApiResult = .ok rows) :
    ∀ r ∈ rows,
      strLeB r.time (cpTimeFor (minuteStage code tail_bars e st).1.last_time code) = true := by
  intro r hr
  have hcov := appendRows_covers code rows st.last_time st.appended false r hr
  unfold minuteStage
  rw [hfm]
  dsimp only
  cases hgl : rows.getLast? with
  | none =>
      dsimp only
      rcases har : appendRows code rows st.last_time st.appended false with ⟨lt2, app2, w2⟩
      rw [har] at hcov
      exact hcov
  | some rl =>
      dsimp only
      rcases har : appendRows code rows st.last_time st.appended false with ⟨lt2, app2, w2⟩
      rw [har] at hcov
      exact hcov

/-- After one symbol step, every row its minute fetch yields is covered by
that code's checkpoint entry. -/
theorem processSymbol_covers (env : String → SymEnv)
    (spot : Nat → Except String (List Quote)) (tail_bars : Int)
    (st : CollectState) (symbol : String) (rows : List MinuteRow)
    (hfm : fetch_minute_tail (to_code symbol) tail_bars (env (to_code symbol)).histResult
        (env (to_code symbol)).minuteApiResult = .ok rows) :
    ∀ r ∈ rows,
      strLeB r.time
        (cpTimeFor (processSymbol env spot tail_bars st symbol).last_time (to_code symbol))
        = true := by
  intro r hr
  have h1 := minuteStage_covers (to_code symbol) tail_bars (env (to_code symbol)) st rows hfm r hr
  unfold processSymbol
  dsimp only
  rcases hms : minuteStage (to_code symbol) tail_bars (env (to_code symbol)) st with ⟨st1, nw⟩
  rw [hms] at h1
  dsimp only
  rcases hqs : quoteStage (to_code symbol) spot (env (to_code symbol)) st1 with ⟨st2, q, tier, skip⟩
  dsimp only
  have hqf := quoteStage_frame (to_code symbol) spot (env (to_code symbol)) st1
  rw [hqs] at hqf
  have hq_lt : st2.last_time = st1.last_time := hqf.2.1
  cases skip with
  | true =>
      rw [if_pos rfl]
      show strLeB r.time (cpTimeFor st2.last_time (to_code symbol)) = true
      rw [hq_lt]
      exact h1
  | false =>
      rw [if_neg Bool.false_ne_true]
      have htf := trackerStage_frame (to_code symbol) q
        (synthStage (to_code symbol) (env (to_code symbol)) q nw
          { st2 with reports := st2.reports ++ [⟨to_code symbol, tier, q⟩] })
      rw [htf.2.1]
      refine strLeB_trans ?_ (synthStage_cur_mono (to_code symbol) (env (to_code symbol)) q nw
        { st2 with reports := st2.reports ++ [⟨to_code symbol, tier, q⟩] } (to_code symbol))
      show strLeB r.time (cpTimeFor st2.last_time (to_code symbol)) = true
      rw [hq_lt]
      exact h1

/-- After a whole pass, for every requested symbol every row its minute fetch
yields is covered by that code's final checkpoint entry. -/
theorem foldl_covers (env : String → SymEnv) (spot : Nat → Except String (List Quote))
    (tail_bars : Int) :
    ∀ (symbols : List String) (st : CollectState), ∀ s ∈ symbols, ∀ rows,
      fetch_minute_tail (to_code s) tail_bars (env (to_code s)).histResult
          (env (to_code s)).minuteApiResult = .ok rows →
      ∀ r ∈ rows,
        strLeB r.time
          (cpTimeFor (symbols.foldl (processSymbol env spot tail_bars) st).last_time (to_code s))
          = true := by
  intro symbols
  induction symbols with
  | nil =>
      intro st s hs
      simp at hs
  | cons x rest ih =>
      intro st s hs rows hfm r hr
      rw [List.foldl_cons]
      rcases List.mem_cons.mp hs with h | h
      · subst h
        have h1 := processSymbol_covers env spot tail_bars st s rows hfm r hr
        exact strLeB_trans h1 (foldl_cur_mono env spot tail_bars rest _ (to_code s))
      · exact ih _ s h rows hfm r hr

/-- When every row is already covered by the checkpoint, the gated append
loop is a no-op. -/
theorem appendRows_noop (code : String) (rows : List MinuteRow) :
    ∀ (lt : List (String × String)) (app : List (String × MinuteRow)) (w : Bool),
      (∀ r ∈ rows, strLeB r.time (cpTimeFor lt code) = true) →
      appendRows code rows lt app w = (lt, app, w) := by
  induction rows with
  | nil =>
      intro lt app w _
      rfl
  | cons row rest ih =>
      intro lt app w hcov
      unfold appendRows
      by_cases h1 : row.time = ""
      · simp only [if_pos h1]
        exact ih lt app w (fun r hr => hcov r (List.mem_cons_of_mem _ hr))
      · simp only [if_neg h1]
        have hle : strLeB row.time (cpTimeFor lt code) = true :=
          hcov row (List.mem_cons_self _ _)
        have hne : (alookup lt code).getD "" ≠ "" := by
          intro hempty
          have hle2 : strLeB row.time "" = true := by
            unfold cpTimeFor at hle
            rw [hempty] at hle
            exact hle
          exact h1 ((strLeB_empty_right_iff _).mp hle2)
        have h2 : (alookup lt code).getD "" ≠ "" ∧
            strLeB row.time ((alookup lt code).getD "") = true := ⟨hne, hle⟩
        simp only [if_pos h2]
        exact ih lt app w (fun r hr => hcov r (List.mem_cons_of_mem _ hr))

/-- The synthesizer extends the append log by rows that all carry the
synthetic source tag, and by nothing when the market session is closed. -/
theorem synthStage_appends (code : String) (e : SymEnv) (q : Option Quote) (w : Bool)
    (st : CollectState) :
    ∃ extra,
      (synthStage code e q w st).appended = st.appended ++ extra
      ∧ (∀ p ∈ extra, (Prod.snd p).source = "akshare.quote_synthetic_minute")
      ∧ (e.marketOpen = false → extra = []) := by
  unfold synthStage
  cases q with
  | none =>
      exact ⟨[], (List.append_nil _).symm, by intro p hp; simp at hp, fun _ => rfl⟩
  | some quote =>
      by_cases hw : w
      · simp only [if_pos hw]
        exact ⟨[], (List.append_nil _).symm, by intro p hp; simp at hp, fun _ => rfl⟩
      · simp only [if_neg hw]
        by_cases hm : e.marketOpen
        · simp only [if_pos hm]
          by_cases hg : e.nowMinute ≠ "" ∧
              ((alookup st.last_time code).getD "" = "" ∨
                strLtB ((alookup st.last_time code).getD "") e.nowMinute = true)
          · simp only [if_pos hg]
            refine ⟨_, rfl, ?_, ?_⟩
            · intro p hp
              rw [List.mem_singleton.mp hp]
              rfl
            · intro hmc
              exact absurd hm (by rw [hmc]; exact Bool.false_ne_true)
          · simp only [if_neg hg]
            exact ⟨[], (List.append_nil _).symm, by intro p hp; simp at hp, fun _ => rfl⟩
        · simp only [if_neg hm]
          exact ⟨[], (List.append_nil _).symm, by intro p hp; simp at hp, fun _ => rfl⟩

/-- When every fetchable row is covered by the checkpoint, one symbol step
appends only synthetic rows — and nothing at all when the market is closed. -/
theorem processSymbol_appends_synth (env : String → SymEnv)
    (spot : Nat → Except String (List Quote)) (tail_bars : Int)
    (st : CollectState) (symbol : String)
    (hall : ∀ rows,
      fetch_minute_tail (to_code symbol) tail_bars (env (to_code symbol)).histResult
          (env (to_code symbol)).minuteApiResult = .ok rows →
      ∀ r ∈ rows, strLeB r.time (cpTimeFor st.last_time (to_code symbol)) = true) :
    ∃ extra,
      (processSymbol env spot tail_bars st symbol).appended = st.appended ++ extra
      ∧ (∀ p ∈ extra, (Prod.snd p).source = "akshare.quote_synthetic_minute")
      ∧ ((env (to_code symbol)).marketOpen = false → extra = []) := by
  unfold processSymbol
  dsimp only
  rcases hms : minuteStage (to_code symbol) tail_bars (env (to_code symbol)) st with ⟨st1, nw⟩
  have hms_facts : st1.appended = st.appended := by
    unfold minuteStage at hms
    cases hfm : fetch_minute_tail (to_code symbol) tail_bars (env (to_code symbol)).histResult
        (env (to_code symbol)).minuteApiResult with
    | error err =>
        rw [hfm] at hms
        dsimp only at hms
        have h := (Prod.mk.injEq _ _ _ _).mp hms |>.1
        rw [← h]
    | ok minute_rows =>
        rw [hfm] at hms
        dsimp only at hms
        have hnoop := appendRows_noop (to_code symbol) minute_rows st.last_time st.appended false
          (hall minute_rows hfm)
        cases hgl : minute_rows.getLast? with
        | none =>
            rw [hgl] at hms
            dsimp only at hms
            rw [hnoop] at hms
            dsimp only at hms
            have h := (Prod.mk.injEq _ _ _ _).mp hms |>.1
            rw [← h]
        | some rlast =>
            rw [hgl] at hms
            dsimp only at hms
            rw [hnoop] at hms
            dsimp only at hms
            have h := (Prod.mk.injEq _ _ _ _).mp hms |>.1
            rw [← h]
  dsimp only
  rcases hqs : quoteStage (to_code symbol) spot (env (to_code symbol)) st1 with ⟨st2, q, tier, skip⟩
  dsimp only
  have hqf := quoteStage_frame (to_code symbol) spot (env (to_code symbol)) st1
  rw [hqs] at hqf
  have hq_app : st2.appended = st1.appended := hqf.1
  cases skip with
  | true =>
      rw [if_pos rfl]
      refine ⟨[], ?_, by intro p hp; simp at hp, fun _ => rfl⟩
      show st2.appended = st.appended ++ []
      rw [List.append_nil, hq_app, hms_facts]
  | false =>
      rw [if_neg Bool.false_ne_true]
      have htf := trackerStage_frame (to_code symbol) q
        (synthStage (to_code symbol) (env (to_code symbol)) q nw
          { st2 with reports := st2.reports ++ [⟨to_code symbol, tier, q⟩] })
      rw [htf.1]
      obtain ⟨extra, he, hsrc, hclosed⟩ := synthStage_appends (to_code symbol)
        (env (to_code symbol)) q nw
        { st2 with reports := st2.reports ++ [⟨to_code symbol, tier, q⟩] }
      refine ⟨extra, ?_, hsrc, hclosed⟩
      rw [he]
      show st2.appended ++ extra = st.appended ++ extra
      rw [hq_app, hms_facts]

/-- One pass starting from a state whose checkpoint already covers every
fetchable row appends only synthetic rows, and none when every processed
symbol's market session is closed. -/
theorem foldl_second_pass (env : String → SymEnv)
    (spot : Nat → Except String (List Quote)) (tail_bars : Int) :
    ∀ (symbols : List String) (st : CollectState),
      (∀ s ∈ symbols, ∀ rows,
        fetch_minute_tail (to_code s) tail_bars (env (to_code s)).histResult
            (env (to_code s)).minuteApiResult = .ok rows →
        ∀ r ∈ rows, strLeB r.time (cpTimeFor st.last_time (to_code s)) = true) →
      ∃ extra,
        (symbols.foldl (processSymbol env spot tail_bars) st).appended = st.appended ++ extra
        ∧ (∀ p ∈ extra, (Prod.snd p).source = "akshare.quote_synthetic_minute")
        ∧ ((∀ s ∈ symbols, (env (to_code s)).marketOpen = false) → extra = []) := by
  intro symbols
  induction symbols with
  | nil =>
      intro st _
      exact ⟨[], (List.append_nil _).symm, by intro p hp; simp at hp, fun _ => rfl⟩
  | cons x rest ih =>
      intro st hall
      rw [List.foldl_cons]
      obtain ⟨e1, he1, hs1, hc1⟩ := processSymbol_appends_synth env spot tail_bars st x
        (fun rows hfm r hr => hall x (List.mem_cons_self _ _) rows hfm r hr)
      have hall2 : ∀ s ∈ rest, ∀ rows,
          fetch_minute_tail (to_code s) tail_bars (env (to_code s)).histResult
              (env (to_code s)).minuteApiResult = .ok rows →
          ∀ r ∈ rows, strLeB r.time
            (cpTimeFor (processSymbol env spot tail_bars st x).last_time (to_code s)) = true := by
        intro s hs rows hfm r hr
        exact strLeB_trans (hall s (List.mem_cons_of_mem _ hs) rows hfm r hr)
          (processSymbol_cur_mono env spot tail_bars st x (to_code s))
      obtain ⟨e2, he2, hs2, hc2⟩ := ih (processSymbol env spot tail_bars st x) hall2
      refine ⟨e1 ++ e2, ?_, ?_, ?_⟩
      · rw [he2, he1, List.append_assoc]
      · intro p hp
        rcases List.mem_append.mp hp with h | h
        · exact hs1 p h
        · exact hs2 p h
      · intro hmc
        rw [hc1 (hmc x (List.mem_cons_self _ _)),
          hc2 (fun s hs => hmc s (List.mem_cons_of_mem _ hs))]
        rfl

/-- C2 (corrected): running a second collection pass over the same symbol
list with unchanged upstream data appends zero bars from the fetched minute
sources — every row the second pass appends carries the synthetic quote-bar
source tag — and appends zero bars altogether when every processed symbol's
market session is closed. (The original claim of zero bars unconditionally
fails: with the market open and the wall-clock minute past the checkpoint,
the synthesizer still writes one synthetic bar on the second pass.) -/
theorem run_collection_second_pass (env : String → SymEnv)
    (spot : Nat → Except String (List Quote)) (symbols : List String) (tail_bars : Int)
    (cp : Checkpoint) :
    (∀ p ∈ (run_collection env spot symbols tail_bars
        (finalCheckpoint (run_collection env spot symbols tail_bars cp))).appended,
      (Prod.snd p).source = "akshare.quote_synthetic_minute")
    ∧ ((∀ s ∈ symbols, (env (to_code s)).marketOpen = false) →
      (run_collection env spot symbols tail_bars
        (finalCheckpoint (run_collection env spot symbols tail_bars cp))).appended = []) := by
  have hall : ∀ s ∈ symbols, ∀ rows,
      fetch_minute_tail (to_code s) tail_bars (env (to_code s)).histResult
          (env (to_code s)).minuteApiResult = .ok rows →
      ∀ r ∈ rows, strLeB r.time
        (cpTimeFor (initState (finalCheckpoint
          (run_collection env spot symbols tail_bars cp))).last_time (to_code s)) = true := by
    intro s hs rows hfm r hr
    exact foldl_covers env spot tail_bars symbols (initState cp) s hs rows hfm r hr
  obtain ⟨extra, he, hsrc, hclosed⟩ := foldl_second_pass env spot tail_bars symbols
    (initState (finalCheckpoint (run_collection env spot symbols tail_bars cp))) hall
  constructor
  · intro p hp
    have hp1 : p ∈ (symbols.foldl (processSymbol env spot tail_bars)
        (initState (finalCheckpoint (run_collection env spot symbols tail_bars cp)))).appended := hp
    rw [he] at hp1
    have hp2 : p ∈ ([] : List (String × MinuteRow)) ++ extra := hp1
    rw [List.nil_append] at hp2
    exact hsrc p hp2
  · intro hmc
    show (symbols.foldl (processSymbol env spot tail_bars)
      (initState (finalCheckpoint (run_collection env spot symbols tail_bars cp)))).appended = []
    rw [he, hclosed hmc]
    rfl

/-- Unchanged upstream data does NOT give an idle second pass: with the
market open and the wall-clock minute past the first pass's checkpoint, the
second pass appends one (synthetic) bar. -/
theorem second_pass_counterexample :
    (run_collection wEnvOpen wSpotFail ["600519"] 8
      (finalCheckpoint (run_collection wEnvOpen wSpotFail ["600519"] 8 wCpEmpty))).appended.length
      = 1 := by decide

theorem run_collection_second_pass_witness :
    (run_collection wEnvClosed wSpotFail ["600519"] 8
      (finalCheckpoint (run_collection wEnvClosed wSpotFail ["600519"] 8 wCpEmpty))).appended
      = [] :=
  (run_collection_second_pass wEnvClosed wSpotFail ["600519"] 8 wCpEmpty).2 (by decide)

/-! ### C3: converter dedup, order and resequencing -/

theorem mem_keys_aset {κ α : Type} [DecidableEq κ] (d : List (κ × α)) (k x : κ) (v : α)
    (hx : x ∈ (aset d k v).map Prod.fst) : x ∈ d.map Prod.fst ∨ x = k := by
  induction d with
  | nil =>
      simp [aset] at hx
      right
      exact hx
  | cons p rest ih =>
      obtain ⟨k1, v1⟩ := p
      unfold aset at hx
      by_cases h : k1 = k
      · rw [if_pos h] at hx
        simp only [List.map_cons, List.mem_cons] at hx ⊢
        rcases hx with h1 | h1
        · right
          exact h1
        · left
          right
          exact h1
      · rw [if_neg h] at hx
        simp only [List.map_cons, List.mem_cons] at hx ⊢
        rcases hx with h1 | h1
        · left
          left
          exact h1
        · rcases ih h1 with h2 | h2
          · left
            right
            exact h2
          · right
            exact h2

theorem keys_aset_nodup {κ α : Type} [DecidableEq κ] (d : List (κ × α)) (k : κ) (v : α)
    (h : (d.map Prod.fst).Nodup) : ((aset d k v).map Prod.fst).Nodup := by
  induction d with
  | nil => simp [aset]
  | cons p rest ih =>
      obtain ⟨k1, v1⟩ := p
      rw [List.map_cons, List.nodup_cons] at h
      unfold aset
      by_cases hk : k1 = k
      · rw [if_pos hk, List.map_cons, List.nodup_cons]
        refine ⟨?_, h.2⟩
        rw [← hk]
        exact h.1
      · rw [if_neg hk, List.map_cons, List.nodup_cons]
        refine ⟨?_, ih h.2⟩
        intro hmem
        rcases mem_keys_aset rest k k1 v hmem with h1 | h1
        · exact h.1 h1
        · exact hk h1

theorem alookup_of_mem_nodup {κ α : Type} [DecidableEq κ] (d : List (κ × α)) :
    ∀ (k : κ) (v : α), (d.map Prod.fst).Nodup → (k, v) ∈ d → alookup d k = some v := by
  induction d with
  | nil =>
      intro k v _ hm
      simp at hm
  | cons p rest ih =>
      intro k v hnd hm
      obtain ⟨k1, v1⟩ := p
      rw [List.map_cons, List.nodup_cons] at hnd
      unfold alookup
      rcases List.mem_cons.mp hm with h1 | h1
      · have hk : k1 = k := (congrArg Prod.fst h1).symm
        rw [if_pos hk]
        have hv : v1 = v := (congrArg Prod.snd h1).symm
        rw [hv]
      · have hk : k1 ≠ k := by
          intro he
          apply hnd.1
          show k1 ∈ rest.map Prod.fst
          rw [he]
          exact List.mem_map.mpr ⟨(k, v), h1, rfl⟩
        rw [if_neg hk]
        exact ih k v hnd.2 h1

theorem convertLoop_wellKeyed :
    ∀ (records : List RawRecord) (idx : Nat) (acc final : List ((String × Int) × Frame)),
      (∀ p ∈ acc, p.1 = frameKey p.2) →
      convertLoop records idx acc = some final →
      ∀ p ∈ final, p.1 = frameKey p.2 := by
  intro records
  induction records with
  | nil =>
      intro idx acc final hacc hconv
      unfold convertLoop at hconv
      injection hconv with h
      rw [← h]
      exact hacc
  | cons row rest ih =>
      intro idx acc final hacc hconv
      unfold convertLoop at hconv
      dsimp only at hconv
      by_cases hg : to_code row.symbol_code = "" ∨ row.time = ""
      · rw [if_pos hg] at hconv
        exact ih (idx + 1) acc final hacc hconv
      · rw [if_neg hg] at hconv
        cases hmf : map_row_to_frame (to_code row.symbol_code) row (Int.ofNat (idx + 1)) with
        | none =>
            rw [hmf] at hconv
            cases hconv
        | some frame =>
            rw [hmf] at hconv
            dsimp only at hconv
            refine ih (idx + 1) _ final ?_ hconv
            intro p hp
            rcases mem_aset hp with h1 | h1
            · subst h1
              rfl
            · exact hacc p h1

theorem convertLoop_keys_nodup :
    ∀ (records : List RawRecord) (idx : Nat) (acc final : List ((String × Int) × Frame)),
      (acc.map Prod.fst).Nodup →
      convertLoop records idx acc = some final →
      (final.map Prod.fst).Nodup := by
  intro records
  induction records with
  | nil =>
      intro idx acc final hacc hconv
      unfold convertLoop at hconv
      injection hconv with h
      rw [← h]
      exact hacc
  | cons row rest ih =>
      intro idx acc final hacc hconv
      unfold convertLoop at hconv
      dsimp only at hconv
      by_cases hg : to_code row.symbol_code = "" ∨ row.time = ""
      · rw [if_pos hg] at hconv
        exact ih (idx + 1) acc final hacc hconv
      · rw [if_neg hg] at hconv
        cases hmf : map_row_to_frame (to_code row.symbol_code) row (Int.ofNat (idx + 1)) with
        | none =>
            rw [hmf] at hconv
            cases hconv
        | some frame =>
            rw [hmf] at hconv
            dsimp only at hconv
            exact ih (idx + 1) _ final (keys_aset_nodup acc (frameKey frame) frame hacc) hconv

theorem convertLoop_alookup :
    ∀ (records : List RawRecord) (idx : Nat) (acc final : List ((String × Int) × Frame)),
      convertLoop records idx acc = some final →
      ∀ key, alookup final key = (lastFrameFor records idx key <|> alookup acc key) := by
  intro records
  induction records with
  | nil =>
      intro idx acc final hconv key
      unfold convertLoop at hconv
      injection hconv with h
      rw [← h]
      rfl
  | cons row rest ih =>
      intro idx acc final hconv key
      unfold convertLoop at hconv
      dsimp only at hconv
      by_cases hg : to_code row.symbol_code = "" ∨ row.time = ""
      · rw [if_pos hg] at hconv
        have h := ih (idx + 1) acc final hconv key
        cases hl : lastFrameFor rest (idx + 1) key with
        | some f =>
            rw [hl] at h
            have hfull : lastFrameFor (row :: rest) idx key = some f := by
              unfold lastFrameFor
              rw [hl]
            rw [hfull]
            exact h
        | none =>
            rw [hl] at h
            have h2 : alookup final key = alookup acc key := h
            have hfull : lastFrameFor (row :: rest) idx key = none := by
              unfold lastFrameFor
              rw [hl]
              dsimp only
              rw [if_pos hg]
            rw [hfull]
            exact h2
      · rw [if_neg hg] at hconv
        cases hmf : map_row_to_frame (to_code row.symbol_code) row (Int.ofNat (idx + 1)) with
        | none =>
            rw [hmf] at hconv
            cases hconv
        | some frame =>
            rw [hmf] at hconv
            dsimp only at hconv
            have h := ih (idx + 1) (aset acc (frameKey frame) frame) final hconv key
            cases hl : lastFrameFor rest (idx + 1) key with
            | some f =>
                rw [hl] at h
                have hfull : lastFrameFor (row :: rest) idx key = some f := by
                  unfold lastFrameFor
                  rw [hl]
                rw [hfull]
                exact h
            | none =>
                rw [hl] at h
                have h2 : alookup final key = alookup (aset acc (frameKey frame) frame) key := h
                by_cases hk : frameKey frame = key
                · have hfull : lastFrameFor (row :: rest) idx key = some frame := by
                    unfold lastFrameFor
                    rw [hl]
                    dsimp only
                    rw [if_neg hg, hmf]
                    dsimp only
                    rw [if_pos hk]
                  rw [hfull]
                  show alookup final key = some frame
                  rw [h2, ← hk]
                  exact alookup_aset_self acc (frameKey frame) frame
                · have hfull : lastFrameFor (row :: rest) idx key = none := by
                    unfold lastFrameFor
                    rw [hl]
                    dsimp only
                    rw [if_neg hg, hmf]
                    dsimp only
                    rw [if_neg hk]
                  rw [hfull]
                  show alookup final key = alookup acc key
                  rw [h2]
                  exact alookup_aset_other acc (frameKey frame) key frame hk

theorem frameKeyLeB_total (a b : Frame) (h : frameKeyLeB a b = false) :
    frameKeyLeB b a = true := by
  unfold frameKeyLeB at h ⊢
  by_cases h1 : a.start_ts_ms < b.start_ts_ms
  · rw [if_pos h1] at h
    cases h
  · rw [if_neg h1] at h
    by_cases h2 : b.start_ts_ms < a.start_ts_ms
    · rw [if_pos h2]
    · rw [if_neg h2] at h
      rw [if_neg h2, if_neg h1]
      unfold strLeB at h
      cases hx : strLtB b.symbol a.symbol with
      | true => exact strLeB_of_strLtB hx
      | false =>
          rw [hx] at h
          cases h

theorem frameKeyLeB_trans (a b c : Frame) (h1 : frameKeyLeB a b = true)
    (h2 : frameKeyLeB b c = true) : frameKeyLeB a c = true := by
  unfold frameKeyLeB at h1 h2 ⊢
  by_cases hab : a.start_ts_ms < b.start_ts_ms
  · by_cases hbc : b.start_ts_ms < c.start_ts_ms
    · rw [if_pos (by omega : a.start_ts_ms < c.start_ts_ms)]
    · rw [if_neg hbc] at h2
      by_cases hcb : c.start_ts_ms < b.start_ts_ms
      · rw [if_pos hcb] at h2
        cases h2
      · rw [if_pos (by omega : a.start_ts_ms < c.start_ts_ms)]
  · rw [if_neg hab] at h1
    by_cases hba : b.start_ts_ms < a.start_ts_ms
    · rw [if_pos hba] at h1
      cases h1
    · rw [if_neg hba] at h1
      by_cases hbc : b.start_ts_ms < c.start_ts_ms
      · rw [if_pos (by omega : a.start_ts_ms < c.start_ts_ms)]
      · rw [if_neg hbc] at h2
        by_cases hcb : c.start_ts_ms < b.start_ts_ms
        · rw [if_pos hcb] at h2
          cases h2
        · rw [if_neg hcb] at h2
          rw [if_neg (by omega : ¬ a.start_ts_ms < c.start_ts_ms),
            if_neg (by omega : ¬ c.start_ts_ms < a.start_ts_ms)]
          exact strLeB_trans h1 h2

theorem insertFrame_perm (f : Frame) (l : List Frame) :
    List.Perm (insertFrame f l) (f :: l) := by
  induction l with
  | nil => exact List.Perm.refl _
  | cons g rest ih =>
      unfold insertFrame
      by_cases h : frameKeyLeB f g = true
      · rw [if_pos h]
      · rw [if_neg h]
        exact (List.Perm.cons g ih).trans (List.Perm.swap f g rest)

theorem sortFrames_perm (l : List Frame) : List.Perm (sortFrames l) l := by
  induction l with
  | nil => exact List.Perm.refl _
  | cons f rest ih =>
      exact (insertFrame_perm f (sortFrames rest)).trans (List.Perm.cons f ih)

theorem pairwise_insertFrame (f : Frame) (l : List Frame)
    (h : List.Pairwise (fun a b => frameKeyLeB a b = true) l) :
    List.Pairwise (fun a b => frameKeyLeB a b = true) (insertFrame f l) := by
  induction l with
  | nil => simp [insertFrame]
  | cons g rest ih =>
      rcases List.pairwise_cons.mp h with ⟨hg, hrest⟩
      unfold insertFrame
      by_cases hfg : frameKeyLeB f g = true
      · rw [if_pos hfg]
        refine List.pairwise_cons.mpr ⟨?_, h⟩
        intro b hb
        rcases List.mem_cons.mp hb with h1 | h1
        · rw [h1]
          exact hfg
        · exact frameKeyLeB_trans f g b hfg (hg b h1)
      · rw [if_neg hfg]
        refine List.pairwise_cons.mpr ⟨?_, ih hrest⟩
        intro b hb
        have hb2 : b ∈ f :: rest := (insertFrame_perm f rest).mem_iff.mp hb
        rcases List.mem_cons.mp hb2 with h1 | h1
        · rw [h1]
          refine frameKeyLeB_total f g ?_
          cases hx : frameKeyLeB f g with
          | true => exact absurd hx hfg
          | false => rfl
        · exact hg b h1

theorem sortFrames_pairwise (l : List Frame) :
    List.Pairwise (fun a b => frameKeyLeB a b = true) (sortFrames l) := by
  induction l with
  | nil => exact List.Pairwise.nil
  | cons f rest ih => exact pairwise_insertFrame f (sortFrames rest) ih

theorem truncateFrames_drop (m : Int) (l : List Frame) :
    ∃ n, truncateFrames m l = l.drop n := by
  unfold truncateFrames pySliceFrom
  by_cases h : m < Int.ofNat l.length
  · rw [if_pos h]
    by_cases h2 : -m < 0
    · rw [if_pos h2]
      exact ⟨_, rfl⟩
    · rw [if_neg h2]
      exact ⟨_, rfl⟩
  · rw [if_neg h]
    exact ⟨0, (List.drop_zero l).symm⟩

theorem truncateFrames_length (m : Int) (l : List Frame) (hm : 0 < m) :
    Int.ofNat (truncateFrames m l).length ≤ m := by
  unfold truncateFrames pySliceFrom
  by_cases h : m < Int.ofNat l.length
  · rw [if_pos h]
    have h2 : -m < 0 := by omega
    rw [if_pos h2, List.length_drop]
    simp only [Int.ofNat_eq_coe] at h ⊢
    omega
  · rw [if_neg h]
    simp only [Int.ofNat_eq_coe] at h ⊢
    omega

theorem reseqFrom_length (l : List Frame) : ∀ j : Int, (reseqFrom j l).length = l.length := by
  induction l with
  | nil =>
      intro j
      rfl
  | cons f rest ih =>
      intro j
      show (reseqFrom (j + 1) rest).length + 1 = rest.length + 1
      rw [ih (j + 1)]

theorem reseqFrom_get_seq (l : List Frame) :
    ∀ (j : Int) (i : Nat) (h : i < (reseqFrom j l).length),
      ((reseqFrom j l).get ⟨i, h⟩).seq = j + (i : Int) := by
  induction l with
  | nil =>
      intro j i h
      simp [reseqFrom] at h
  | cons f rest ih =>
      intro j i h
      cases i with
      | zero =>
          show j = j + ((0 : Nat) : Int)
          omega
      | succ i2 =>
          have h2 : i2 < (reseqFrom (j + 1) rest).length := Nat.lt_of_succ_lt_succ h
          show ((reseqFrom (j + 1) rest).get ⟨i2, h2⟩).seq = j + ((i2 + 1 : Nat) : Int)
          rw [ih (j + 1) i2 h2]
          omega

theorem mem_reseqFrom (l : List Frame) :
    ∀ (j : Int) (g : Frame), g ∈ reseqFrom j l → ∃ f ∈ l, g = { f with seq := g.seq } := by
  induction l with
  | nil =>
      intro j g hg
      simp [reseqFrom] at hg
  | cons f rest ih =>
      intro j g hg
      rcases List.mem_cons.mp hg with h1 | h1
      · refine ⟨f, List.mem_cons_self _ _, ?_⟩
        rw [h1]
      · rcases ih (j + 1) g h1 with ⟨f0, hf0, he⟩
        exact ⟨f0, List.mem_cons_of_mem _ hf0, he⟩

theorem reseqFrom_pairwise_le (l : List Frame) :
    ∀ j : Int, List.Pairwise (fun a b => frameKeyLeB a b = true) l →
      List.Pairwise (fun a b => frameKeyLeB a b = true) (reseqFrom j l) := by
  induction l with
  | nil =>
      intro j _
      exact List.Pairwise.nil
  | cons f rest ih =>
      intro j h
      rcases List.pairwise_cons.mp h with ⟨hf, hrest⟩
      refine List.pairwise_cons.mpr ⟨?_, ih (j + 1) hrest⟩
      intro b hb
      rcases mem_reseqFrom rest (j + 1) b hb with ⟨f0, hf0, he⟩
      rw [he]
      show frameKeyLeB f f0 = true
      exact hf f0 hf0

theorem reseqFrom_map_key (l : List Frame) :
    ∀ j : Int, (reseqFrom j l).map frameKey = l.map frameKey := by
  induction l with
  | nil =>
      intro j
      rfl
  | cons f rest ih =>
      intro j
      show frameKey { f with seq := j } :: (reseqFrom (j + 1) rest).map frameKey
        = frameKey f :: rest.map frameKey
      rw [ih (j + 1)]
      rfl

/-- C3: `convert_records_to_frames` keeps at most one frame per
`(venue-qualified symbol, window-start-ms)` key; each emitted frame carries
the values (original sequence number aside) of the input record that appears
latest in input order among those sharing its key; the output is sorted
ascending by `(start_ts_ms, symbol)`; sequence numbers are reassigned
`1..N`; and with a positive `max_frames` at most `max_frames` frames survive
the truncation. -/
theorem convert_records_canonical (records : List RawRecord) (max_frames : Int)
    (out : List Frame) (hconv : convert_records_to_frames records max_frames = some out) :
    (out.map frameKey).Nodup
    ∧ (∀ g ∈ out, ∃ f, lastFrameFor records 0 (frameKey g) = some f
        ∧ g = { f with seq := g.seq })
    ∧ List.Pairwise (fun a b => frameKeyLeB a b = true) out
    ∧ (∀ (i : Nat) (h : i < out.length), (out.get ⟨i, h⟩).seq = (i : Int) + 1)
    ∧ (0 < max_frames → (out.length : Int) ≤ max_frames) := by
  unfold convert_records_to_frames at hconv
  cases hloop : convertLoop records 0 [] with
  | none =>
      rw [hloop] at hconv
      cases hconv
  | some deduped =>
      rw [hloop] at hconv
      dsimp only at hconv
      injection hconv with hout
      subst hout
      have hwk : ∀ p ∈ deduped, p.1 = frameKey p.2 :=
        convertLoop_wellKeyed records 0 [] deduped (by intro p hp; simp at hp) hloop
      have hnd : (deduped.map Prod.fst).Nodup :=
        convertLoop_keys_nodup records 0 [] deduped List.nodup_nil hloop
      have hkeys_eq : deduped.map Prod.fst = (deduped.map Prod.snd).map frameKey := by
        rw [List.map_map]
        exact List.map_congr_left (fun p hp => hwk p hp)
      have hvals_nodup : ((deduped.map Prod.snd).map frameKey).Nodup := hkeys_eq ▸ hnd
      have hlast : ∀ g ∈ deduped.map Prod.snd,
          lastFrameFor records 0 (frameKey g) = some g := by
        intro g hg
        rcases List.mem_map.mp hg with ⟨p, hp, hpe⟩
        obtain ⟨k, v⟩ := p
        have hpe2 : v = g := hpe
        rw [← hpe2]
        have hk : k = frameKey v := hwk (k, v) hp
        rw [hk] at hp
        have hal : alookup deduped (frameKey v) = some v :=
          alookup_of_mem_nodup deduped (frameKey v) v hnd hp
        have h1 := convertLoop_alookup records 0 [] deduped hloop (frameKey v)
        rw [hal] at h1
        cases hl : lastFrameFor records 0 (frameKey v) with
        | some f =>
            rw [hl] at h1
            have h2 : (some v : Option Frame) = some f := h1
            injection h2 with h3
            exact congrArg some h3.symm
        | none =>
            rw [hl] at h1
            have h2 : (some v : Option Frame) = none := h1
            exact Option.noConfusion h2
      have hsortp := sortFrames_perm (deduped.map Prod.snd)
      have hsorted := sortFrames_pairwise (deduped.map Prod.snd)
      have hsort_keys : ((sortFrames (deduped.map Prod.snd)).map frameKey).Nodup :=
        ((hsortp.map frameKey).nodup_iff).mpr hvals_nodup
      obtain ⟨n, hn⟩ := truncateFrames_drop max_frames (sortFrames (deduped.map Prod.snd))
      have htr_sub : List.Sublist
          (truncateFrames max_frames (sortFrames (deduped.map Prod.snd)))
          (sortFrames (deduped.map Prod.snd)) := by
        rw [hn]
        exact List.drop_sublist n _
      have htr_sorted := List.Pairwise.sublist htr_sub hsorted
      have htr_keys : ((truncateFrames max_frames
          (sortFrames (deduped.map Prod.snd))).map frameKey).Nodup :=
        List.Nodup.sublist (List.Sublist.map frameKey htr_sub) hsort_keys
      have htr_mem : ∀ g ∈ truncateFrames max_frames (sortFrames (deduped.map Prod.snd)),
          g ∈ deduped.map Prod.snd :=
        fun g hg => hsortp.subset (htr_sub.subset hg)
      refine ⟨?_, ?_, ?_, ?_, ?_⟩
      · rw [reseqFrom_map_key]
        exact htr_keys
      · intro g hg
        rcases mem_reseqFrom _ 1 g hg with ⟨f0, hf0, he⟩
        refine ⟨f0, ?_, he⟩
        have hkey : frameKey g = frameKey f0 := by
          rw [he]
          rfl
        rw [hkey]
        exact hlast f0 (htr_mem f0 hf0)
      · exact reseqFrom_pairwise_le _ 1 htr_sorted
      · intro i h
        rw [reseqFrom_get_seq _ 1 i h]
        omega
      · intro hm
        rw [reseqFrom_length]
        have hlen := truncateFrames_length max_frames (sortFrames (deduped.map Prod.snd)) hm
        simp only [Int.ofNat_eq_coe] at hlen
        exact hlen

theorem convert_records_canonical_witness :
    convert_records_to_frames wRecsC3 20000 = some wOutC3
    ∧ ((wOutC3.map frameKey).Nodup
      ∧ (∀ g ∈ wOutC3, ∃ f, lastFrameFor wRecsC3 0 (frameKey g) = some f
          ∧ g = { f with seq := g.seq })
      ∧ List.Pairwise (fun a b => frameKeyLeB a b = true) wOutC3
      ∧ (∀ (i : Nat) (h : i < wOutC3.length), (wOutC3.get ⟨i, h⟩).seq = (i : Int) + 1)
      ∧ (0 < (20000 : Int) → (wOutC3.length : Int) ≤ 20000)) :=
  ⟨by rfl, convert_records_canonical wRecsC3 20000 wOutC3 (by rfl)⟩

end OnlyTrade
